import Mathlib

/-!
# RecyclerChecker: write-barrier annotation checker

A shallow embedding of `tools/RecyclerChecker/RecyclerChecker.cpp` and the
properties of its allocation classifier, field classifier, type-name matcher
and violation reporter.

Conventions of the embedding.

* A NUL-terminated C string is the `List Char` of its characters before the
  terminator; a `const char*` cursor into it is the remaining suffix.
* `std::set` and `std::map` are strictly increasing lists (of keys, or of
  key/value pairs); pointers to clang `Type` objects are their addresses.
* The clang AST is input data: each node carries what the checker reads
  from it.
* `Log::errs()` is the list of messages written so far; `Log::outs()` and the
  AST dumps are not modelled.
-/

namespace RecyclerChecker

/-! ## Containers -/

/-- The order `std::less<std::string>`: lexicographic on the characters. -/
def stringLess (a b : String) : Prop := a.data < b.data

instance : DecidableRel stringLess := fun a b => inferInstanceAs (Decidable (a.data < b.data))

/-- The order `std::less` on the addresses of types. -/
def ptrLess (a b : Nat) : Prop := a < b

instance : DecidableRel ptrLess := fun a b => inferInstanceAs (Decidable (a < b))

/-- Insertion into a `std::set` ordered by `less`: an element already present
is left alone, a new one is placed before the first larger element. -/
def setInsert {α : Type} [DecidableEq α] (less : α → α → Prop) [DecidableRel less]
    (x : α) (s : List α) : List α :=
  if x ∈ s then s else s.orderedInsert less x

/-- The lookup `std::map::find`. -/
def mapFind {κ ν : Type} [DecidableEq κ] (k : κ) : List (κ × ν) → Option ν
  | [] => none
  | (k', v) :: rest => if k = k' then some v else mapFind k rest

/-- Replace the value `v` stored under `k` by `f v`. -/
def mapUpdate {κ ν : Type} [DecidableEq κ] (k : κ) (f : ν → ν) : List (κ × ν) → List (κ × ν)
  | [] => []
  | (k', v) :: rest =>
    if k = k' then (k', f v) :: rest else (k', v) :: mapUpdate k f rest

/-- The update `m[k] = f (m[k])` of a `std::map`: `operator[]` finds the
entry of `k`, or first creates a value-initialised entry `dflt` in the key
order `less` when `k` is absent. -/
def mapModify {κ ν : Type} [DecidableEq κ] (less : κ → κ → Prop) [DecidableRel less]
    (k : κ) (dflt : ν) (f : ν → ν) (m : List (κ × ν)) : List (κ × ν) :=
  match mapFind k m with
  | some _ => mapUpdate k f m
  | none => m.orderedInsert (fun a b => less a.1 b.1) (k, f dflt)

/-- The search `s.find(needle)` of `std::string`: the first position at which
`needle` occurs in `s`, `none` standing for `npos`. -/
def stringFind (needle : List Char) : List Char → Option Nat
  | [] => if needle = [] then some 0 else none
  | c :: cs =>
    if needle.isPrefixOf (c :: cs) then some 0
    else (stringFind needle cs).map Nat.succ

/-! ## The clang AST, as the checker reads it -/

/-- The enumerators of `enum AllocationTypes`. The enumeration is declared in
`RecyclerChecker.h`; its numeric values are a parameter of the development.
Values of the enumeration are combined with bitwise or. -/
structure AllocationTypes where
  Unknown : Nat
  NonRecycler : Nat
  Recycler : Nat
  WriteBarrier : Nat
  deriving DecidableEq

/-- What the checker reads from a `QualType`. -/
structure QualType where
  /-- The text `getAsString()`. -/
  asString : String
  /-- The address `getCanonicalTypeInternal().getTypePtr()`. -/
  canonicalTypePtr : Nat
  isPointerType : Bool
  isCompoundType : Bool
  /-- The address `getUnqualifiedDesugaredType()->getPointeeType().getTypePtr()`. -/
  pointeeTypePtr : Nat
  deriving DecidableEq

/-- Opcodes of a clang `UnaryOperator`. -/
inductive UnaryOperatorKind
  | UO_AddrOf
  | UO_Deref
  | UO_Plus
  | UO_Minus
  | UO_Not
  | UO_LNot
  deriving DecidableEq

/-- The expression shapes the allocation classifier tells apart. -/
inductive Expr
  /-- A `static_cast`; the argument is the name of
  `getTypeAsWritten().getBaseTypeIdentifier()`, `none` when it is null. -/
  | CXXStaticCastExpr (baseTypeIdentifier : Option String)
  | UnaryOperator (opcode : UnaryOperatorKind) (subExpr : Expr)
  /-- A reference to a declaration; the argument is
  `getNameInfo().getName().getAsString()`. -/
  | DeclRefExpr (name : String)
  /-- Any other expression. -/
  | Other
  deriving DecidableEq

/-- A `new` expression: its placement arguments (never null in a clang AST)
and the allocated type. -/
structure CXXNewExpr where
  placementArgs : List Expr
  allocatedType : QualType
  deriving DecidableEq

def CXXNewExpr.getNumPlacementArgs (newExpr : CXXNewExpr) : Nat :=
  newExpr.placementArgs.length

/-- The placement argument at index `i`, read only for `i` below
`getNumPlacementArgs`. -/
def CXXNewExpr.getPlacementArg (newExpr : CXXNewExpr) (i : Nat) : Expr :=
  newExpr.placementArgs.getD i Expr.Other

/-- The cast to `CXXStaticCastExpr`: the written target's identifier name, or
`none` (null) for a node of another kind. -/
def Expr.asCXXStaticCastExpr : Expr → Option (Option String)
  | .CXXStaticCastExpr t => some t
  | _ => none

/-- The cast to `UnaryOperator` as the source tests it: opcode and operand,
or `none` (the null pointer of the source's `!= nullptr` test) for a node of
another kind. -/
def Expr.asUnaryOperator : Expr → Option (UnaryOperatorKind × Expr)
  | .UnaryOperator op sub => some (op, sub)
  | _ => none

/-- The cast to `DeclRefExpr` as the source tests it: the referenced name, or
`none` (the null pointer the source's `else` branch is for). -/
def Expr.asDeclRefExpr : Expr → Option String
  | .DeclRefExpr n => some n
  | _ => none

/-! ## State of the analysis -/

/-- An edit handed to the rewriter by `ReplaceText(location, length, text)`. -/
structure Replacement where
  location : Nat
  length : Nat
  text : List Char
  deriving DecidableEq

/-- The members of `MainVisitor` that the analysis reads and writes, and the
error log. -/
structure MainVisitor where
  _fix : Bool
  _fixed : Bool
  _barrierTypeDefined : Bool
  _pointerClasses : List String
  _barrieredClasses : List String
  /-- The map from canonical type to accumulated allocation kind. -/
  _allocationTypes : List (Nat × Nat)
  /-- The map from allocator function name to the type names allocated
  through it. -/
  _allocatorTypeMap : List (String × List String)
  /-- The edits accumulated in `_rewriter`, in the order they were made. -/
  _rewriter : List Replacement
  /-- The locations of the "Unbarried field" diagnostics reported so far. -/
  diagnostics : List Nat
  /-- Messages written to the error log. -/
  errs : List String
  deriving DecidableEq

/-- The state built by the constructor of `MainVisitor`. -/
def MainVisitor.init ( fix : Bool) : MainVisitor :=
  { _fix := fix, _fixed := false, _barrierTypeDefined := false,
    _pointerClasses := [], _barrieredClasses := [],
    _allocationTypes := [], _allocatorTypeMap := [],
    _rewriter := [], diagnostics := [], errs := [] }

/-! ## Allocation classifier -/

def RecordAllocation (mv : MainVisitor) (qtype : QualType) (allocationType : Nat) :
    MainVisitor :=
  let type := qtype.canonicalTypePtr
  { mv with _allocationTypes :=
      mapModify ptrLess type 0 (fun k => k ||| allocationType) mv._allocationTypes }

def RecordRecyclerAllocation (mv : MainVisitor) (allocationFunction type : String) :
    MainVisitor :=
  { mv with _allocatorTypeMap :=
      mapModify stringLess allocationFunction [] (setInsert stringLess type) mv._allocatorTypeMap }

/-- The argument is the identifier name of the cast's written target type. -/
def CheckAllocationType (E : AllocationTypes) (castNode : Option String) : Nat :=
  match castNode with
  | some info => if info = "Recycler" then E.Recycler else E.NonRecycler
  | none => E.Unknown

def VisitCXXNewExpr (E : AllocationTypes) (mv : MainVisitor) (newExpr : CXXNewExpr) :
    MainVisitor :=
  if newExpr.getNumPlacementArgs > 1 then
    let firstArgNode := newExpr.getPlacementArg 0
    match firstArgNode.asCXXStaticCastExpr with
    | some castNode =>
      let allocatedType := newExpr.allocatedType
      let allocationType := CheckAllocationType E castNode
      if allocationType = E.Recycler then
        let secondArgNode := newExpr.getPlacementArg 1
        match secondArgNode.asUnaryOperator with
        | some (.UO_AddrOf, subExpr) =>
          match subExpr.asDeclRefExpr with
          | some allocationFunctionStr =>
            let allocatedTypeStr := allocatedType.asString
            let mv1 := RecordRecyclerAllocation mv allocationFunctionStr allocatedTypeStr
            if (stringFind "WithBarrier".data allocationFunctionStr.data).isSome then
              RecordAllocation mv1 allocatedType E.WriteBarrier
            else
              RecordAllocation mv1 allocatedType allocationType
          | none =>
            RecordAllocation
              { mv with errs := mv.errs ++ ["ERROR: (internal) Expected DeclRefExpr:\n"] }
              allocatedType allocationType
        | _ =>
          RecordAllocation
            { mv with errs := mv.errs ++ ["ERROR: (internal) Expected unary node:\n"] }
            allocatedType allocationType
      else
        RecordAllocation mv allocatedType allocationType
    | none => mv
  else mv

/-- The function-body traversal: every `new` expression met, in order. -/
def VisitCXXNewExprs (E : AllocationTypes) (mv : MainVisitor) (newExprs : List CXXNewExpr) :
    MainVisitor :=
  newExprs.foldl (VisitCXXNewExpr E) mv

/-! ## Records and fields -/

/-- What the checker reads from a `FieldDecl`. -/
structure FieldDecl where
  /-- The declared type `getType()`. -/
  type : QualType
  nameAsString : String
  /-- The source location `getLocStart()`. -/
  locStart : Nat
  /-- The source text `sourceMgr.getCharacterData(getLocStart())`. -/
  characterData : List Char
  deriving DecidableEq

/-- What the checker reads from a `CXXRecordDecl`. -/
structure CXXRecordDecl where
  qualifiedNameAsString : String
  hasDefinition : Bool
  fields : List FieldDecl
  deriving DecidableEq

/-- Modelled from the spec: the helper `StartsWith` is declared in
`RecyclerChecker.h`, which is not among the sources. The spec words it as the
text "textually begins with" the given spelling: a plain test for an initial
segment. -/
def StartsWith (s pre : List Char) : Bool :=
  pre.isPrefixOf s

/-- Modelled from the spec: the helper `Contains` is declared in
`RecyclerChecker.h`, which is not among the sources. The spec words it as the
name being "looked up by name" in the set: a membership test. -/
def Contains (s : List String) (item : String) : Bool :=
  decide (item ∈ s)

/-- Whether a type text starts with the barrier-field-template spelling, with
or without a leading `const`: the test made by both the field classifier and
the reporter. -/
def isBarrierSpelled (fieldTypeName : String) : Bool :=
  StartsWith fieldTypeName.data "typename WriteBarrierFieldTypeTraits".data ||
  StartsWith fieldTypeName.data "const typename WriteBarrierFieldTypeTraits".data

/-! ## Field classifier -/

/-- One iteration of the field loop of `VisitCXXRecordDecl`, on the pair
`(hasUnbarrieredPointer, hasBarrieredField)`. -/
def classifyField (mv : MainVisitor) (flags : Bool × Bool) (field : FieldDecl) : Bool × Bool :=
  let qualType := field.type
  let fieldTypeName := qualType.asString
  if StartsWith fieldTypeName.data "typename WriteBarrierFieldTypeTraits".data ||
      StartsWith fieldTypeName.data "const typename WriteBarrierFieldTypeTraits".data then
    (flags.1, true)
  else if qualType.isPointerType then
    (true, flags.2)
  else if qualType.isCompoundType then
    if Contains mv._pointerClasses fieldTypeName then
      (true, flags.2)
    else if Contains mv._barrieredClasses fieldTypeName then
      (flags.1, true)
    else flags
  else flags

def VisitCXXRecordDecl (mv : MainVisitor) (recordDecl : CXXRecordDecl) : MainVisitor :=
  let typeName := recordDecl.qualifiedNameAsString
  if !mv._barrierTypeDefined && typeName != "Memory::NoWriteBarrierField" then
    mv
  else
    let mv := { mv with _barrierTypeDefined := true }
    if !recordDecl.hasDefinition then
      mv
    else
      let flags := recordDecl.fields.foldl (classifyField mv) (false, false)
      let hasUnbarrieredPointer := flags.1
      let hasBarrieredField := flags.2
      if hasUnbarrieredPointer then
        { mv with _pointerClasses := setInsert stringLess typeName mv._pointerClasses }
      else if hasBarrieredField then
        { mv with _barrieredClasses := setInsert stringLess typeName mv._barrieredClasses }
      else mv

/-- The unbarriered-pointer flag as the specification words it: some field
that is not barrier-spelled is a raw pointer, or is a compound type whose name
is in PointerClassSet. -/
def specHasUnbarrieredPointer (mv : MainVisitor) (recordDecl : CXXRecordDecl) : Bool :=
  recordDecl.fields.any fun field =>
    !isBarrierSpelled field.type.asString &&
      (field.type.isPointerType ||
        (field.type.isCompoundType && Contains mv._pointerClasses field.type.asString))

/-- The barriered-field flag as the specification words it: some field is
barrier-spelled, or is a non-pointer compound type whose name is in
BarrieredClassSet but not in PointerClassSet. -/
def specHasBarrieredField (mv : MainVisitor) (recordDecl : CXXRecordDecl) : Bool :=
  recordDecl.fields.any fun field =>
    isBarrierSpelled field.type.asString ||
      (!field.type.isPointerType && field.type.isCompoundType &&
        Contains mv._barrieredClasses field.type.asString &&
        !Contains mv._pointerClasses field.type.asString)

/-- The declaration traversal: every record declaration met, in order. -/
def VisitCXXRecordDecls (mv : MainVisitor) (recordDecls : List CXXRecordDecl) : MainVisitor :=
  recordDecls.foldl VisitCXXRecordDecl mv

/-! ## Type-name matcher -/

def SkipSpace (p : List Char) : Option (List Char) :=
  match p with
  | ' ' :: rest => some rest
  | _ => none

/-- Both overloads of `SkipPrefix`: the cursor past `pre` when the text
starts with it. -/
def SkipPrefix (p pre : List Char) : Option (List Char) :=
  if StartsWith p pre then some (p.drop pre.length) else none

/-- The counting loop of `SkipTemplateParameters`, `left` being the number of
angle brackets still open. -/
def skipAngles : List Char → Nat → List Char
  | [], _ => []
  | c :: cs, left =>
    match left with
    | 0 => c :: cs
    | n + 1 =>
      if c = '<' then skipAngles cs (n + 2)
      else if c = '>' then skipAngles cs n
      else skipAngles cs (n + 1)

def SkipTemplateParameters (p : List Char) : Option (List Char) :=
  match p with
  | '<' :: rest => some (skipAngles rest 1)
  | _ => none

/-- The loop `while (*p && *p++ != ']');` that skips an array specifier. -/
def skipArray : List Char → List Char
  | [] => []
  | c :: cs => if c ≠ ']' then skipArray cs else cs

/-- The macro `SKIP_EITHER_PREFIX`: skip the keyword in the declared type,
else in the source. -/
def skipEitherPrefix (pre p source : List Char) : Option (List Char × List Char) :=
  match SkipPrefix p pre with
  | some p' => some (p', source)
  | none =>
    match SkipPrefix source pre with
    | some source' => some (p, source')
    | none => none

/-- The lock-step loop `while (... *p == *source && !strchr("<>", *p))`. -/
def matchChars : List Char → List Char → List Char × List Char
  | c :: cs, d :: ds =>
    if c = d ∧ c ≠ '<' ∧ c ≠ '>' then matchChars cs ds else (c :: cs, d :: ds)
  | p, source => (p, source)

/-- The outcome of one iteration of the main loop of `MatchType`. -/
inductive MatchStep
  /-- The iteration ended in `continue` with these cursors. -/
  | next (p source : List Char)
  /-- The iteration ended in `return false`. -/
  | mismatch
  deriving DecidableEq

/-- The body of the main loop of `MatchType`, entered with both cursors on a
character. -/
def matchBody (p source : List Char) : MatchStep :=
  match SkipSpace p with
  | some p' => .next p' source
  | none =>
  match SkipSpace source with
  | some source' => .next p source'
  | none =>
  match (skipEitherPrefix "const ".data p source).orElse fun _ =>
        (skipEitherPrefix "class ".data p source).orElse fun _ =>
        (skipEitherPrefix "struct ".data p source).orElse fun _ =>
        (skipEitherPrefix "union ".data p source).orElse fun _ =>
        skipEitherPrefix "enum ".data p source with
  | some (p', source') => .next p' source'
  | none =>
  if p.head? = some '[' then .next (skipArray p) source
  else
  match SkipTemplateParameters p with
  | some p' => .next p' source
  | none =>
  match SkipTemplateParameters source with
  | some source' => .next p source'
  | none =>
  match stringFind "::".data p with
  | some i =>
    if ' ' ∉ p.take i then
      let n := i + 2
      if (p.take n).isPrefixOf source then .next (p.drop n) (source.drop n)
      else .next (p.drop n) source
    else if p.head? = source.head? then
      let r := matchChars p source
      .next r.1 r.2
    else .mismatch
  | none =>
    if p.head? = source.head? then
      let r := matchChars p source
      .next r.1 r.2
    else .mismatch

/-- The main loop of `MatchType` and the test after it, run for at most
`fuel` iterations. The result is `none` when the iterations are used up,
`some none` for `return false`, and `some (some source)` for `return true`
with `*pSourceEnd = source`. -/
def matchLoop : Nat → List Char → List Char → Option (Option (List Char))
  | fuel, p, source =>
    if p ≠ [] ∧ source ≠ [] then
      match fuel with
      | 0 => none
      | fuel + 1 =>
        match matchBody p source with
        | .next p' source' => matchLoop fuel p' source'
        | .mismatch => some none
    else if p = [] ∧ source ≠ [] then some (some source)
    else some none

/-- The matcher `MatchType(type, source, pSourceEnd)`, its main loop bounded
by `fuel` iterations; results as for `matchLoop`. -/
def MatchType (fuel : Nat) (type source : List Char) : Option (Option (List Char)) :=
  match SkipPrefix source type with
  | some source' => some (some source')
  | none =>
    match (if type = "_Bool".data then SkipPrefix source "bool".data else none) with
    | some source' => some (some source')
    | none => matchLoop fuel type source

/-- One iteration of the main loop of `MatchType` taken from the cursors `a`
and ending in `continue` with the cursors `b`. -/
def loopStep (a b : List Char × List Char) : Prop :=
  a.1 ≠ [] ∧ a.2 ≠ [] ∧ matchBody a.1 a.2 = .next b.1 b.2

instance : DecidableRel loopStep := fun a b =>
  inferInstanceAs (Decidable (a.1 ≠ [] ∧ a.2 ≠ [] ∧ matchBody a.1 a.2 = .next b.1 b.2))

/-! ## Violation reporter and fixer -/

def GetFieldTypeAnnotation (E : AllocationTypes) (mv : MainVisitor) (qtype : QualType) :
    String :=
  if qtype.isPointerType then
    let type := qtype.pointeeTypePtr
    match mapFind type mv._allocationTypes with
    | some second => if second = E.NonRecycler then "FieldNoBarrier(" else "Field("
    | none => "Field("
  else "Field("

/-- One iteration of the field loop of `ProcessUnbarriedFields`; `none` when
the matcher does not return within `fuel` iterations. -/
def processField (E : AllocationTypes) (fuel : Nat) (mv : MainVisitor) (field : FieldDecl) :
    Option MainVisitor :=
  let qualType := field.type
  let fieldTypeName := qualType.asString
  let report := !StartsWith fieldTypeName.data "typename WriteBarrierFieldTypeTraits".data
    && !StartsWith fieldTypeName.data "const typename WriteBarrierFieldTypeTraits".data
    && decide (field.nameAsString.length > 0)
  if report then
    let location := field.locStart
    if mv._fix then
      let beginPtr := field.characterData
      match MatchType fuel fieldTypeName.data beginPtr with
      | none => none
      | some (some endPtr) =>
        let length := beginPtr.length - endPtr.length
        let text := ( GetFieldTypeAnnotation E mv qualType).data ++ beginPtr.take length ++
          (if endPtr.head? = some ' ' then ")".data else ") ".data)
        some { mv with _rewriter := mv._rewriter ++ [⟨location, length, text⟩], _fixed := true }
      | some none =>
        some { mv with
          errs := mv.errs ++
            ["Fail to fix: " ++ fieldTypeName ++ " " ++ field.nameAsString ++ "\n"],
          diagnostics := mv.diagnostics ++ [location] }
    else
      some { mv with diagnostics := mv.diagnostics ++ [location] }
  else some mv

def ProcessUnbarriedFields (E : AllocationTypes) (fuel : Nat) (mv : MainVisitor)
    (recordDecl : CXXRecordDecl) : Option MainVisitor :=
  recordDecl.fields.foldlM (processField E fuel) mv

/-- The set `barrierTypes` built by `Inspect`: the types whose accumulated
allocation kind has a bit of `WriteBarrier`. -/
def barrierTypes (E : AllocationTypes) (mv : MainVisitor) : List Nat :=
  mv._allocationTypes.foldl
    (fun acc item => if item.2 &&& E.WriteBarrier ≠ 0 then setInsert ptrLess item.1 acc else acc) []

/-- The cross-referencing pass `Inspect` (its dumps left out). The argument
`getAsCXXRecordDecl` gives, for the address of a type, the record declaration
`type->getCanonicalTypeInternal()->getAsCXXRecordDecl()`, `none` when null. -/
def Inspect (E : AllocationTypes) (getAsCXXRecordDecl : Nat → Option CXXRecordDecl)
    (fuel : Nat) (mv : MainVisitor) : Option MainVisitor :=
  (barrierTypes E mv).foldlM
    (fun mv type =>
      match getAsCXXRecordDecl type with
      | some r => ProcessUnbarriedFields E fuel mv r
      | none => some mv)
    mv

/-! ## Driver -/

/-- What the checker reads from a `FunctionDecl`: whether it has a body, and
the `new` expressions of the body in traversal order. -/
structure FunctionDecl where
  hasBody : Bool
  newExprs : List CXXNewExpr
  deriving DecidableEq

def VisitFunctionDecl (E : AllocationTypes) (mv : MainVisitor) (functionDecl : FunctionDecl) :
    MainVisitor :=
  if functionDecl.hasBody then VisitCXXNewExprs E mv functionDecl.newExprs else mv

/-- The declarations of a translation unit that the traversal acts on. -/
inductive Decl
  | CXXRecord (recordDecl : CXXRecordDecl)
  | Function (functionDecl : FunctionDecl)
  deriving DecidableEq

/-- The traversal `mainVisitor.TraverseDecl(context.getTranslationUnitDecl())`
over the declarations in the order the frontend gives them. -/
def TraverseDecl (E : AllocationTypes) (mv : MainVisitor) (translationUnit : List Decl) :
    MainVisitor :=
  translationUnit.foldl
    (fun mv decl =>
      match decl with
      | .CXXRecord recordDecl => VisitCXXRecordDecl mv recordDecl
      | .Function functionDecl => VisitFunctionDecl E mv functionDecl)
    mv

/-- The `new` expression `e` is an allocation site of the translation unit. -/
def IsSite (translationUnit : List Decl) (e : CXXNewExpr) : Prop :=
  ∃ functionDecl, Decl.Function functionDecl ∈ translationUnit ∧
    functionDecl.hasBody = true ∧ e ∈ functionDecl.newExprs

/-- The run `HandleTranslationUnit` up to and including `Inspect`: a fresh
`MainVisitor`, the traversal, the cross-referencing pass. -/
def HandleTranslationUnit (E : AllocationTypes)
    (getAsCXXRecordDecl : Nat → Option CXXRecordDecl) (fuel : Nat) ( fix : Bool)
    (translationUnit : List Decl) : Option MainVisitor :=
  Inspect E getAsCXXRecordDecl fuel (TraverseDecl E (MainVisitor.init fix) translationUnit)

/-- The value of the local `report` in the field loop of
`ProcessUnbarriedFields`: the field is named and its type text is not
barrier-spelled. -/
def fieldReported (field : FieldDecl) : Bool :=
  !StartsWith field.type.asString.data "typename WriteBarrierFieldTypeTraits".data
    && !StartsWith field.type.asString.data "const typename WriteBarrierFieldTypeTraits".data
    && decide (field.nameAsString.length > 0)

/-- The number of outputs made so far: diagnostics and text replacements. -/
def MainVisitor.outputs (mv : MainVisitor) : Nat :=
  mv.diagnostics.length + mv._rewriter.length

/-- The member `ApplyFix`. The argument `overwriteChangedFiles` stands for the
rewriter's file output and gives its return value for the edits it is handed.
The result pairs the returned value with the edits that were persisted,
`none` when `overwriteChangedFiles` is not called. -/
def ApplyFix (overwriteChangedFiles : List Replacement → Bool) (mv : MainVisitor) :
    Bool × Option (List Replacement) :=
  if mv._fixed then (overwriteChangedFiles mv._rewriter, some mv._rewriter) else (false, none)

/-- The values of the enumerators of `AllocationTypes` that a union of them
can take, `Unknown` being the empty set of flags. -/
def IsKindUnion (E : AllocationTypes) (k : Nat) : Prop :=
  ∃ a b c : Bool, k = ((if a then E.NonRecycler else 0) ||| (if b then E.Recycler else 0)) |||
    (if c then E.WriteBarrier else 0)

/-! ## Plugin arguments -/

/-- The state `RecyclerCheckerAction::ParseArgs` acts on: the member `_fix`,
whether the log level has been set to `Verbose`, and the error log. -/
structure RecyclerCheckerAction where
  _fix : Bool
  verbose : Bool
  errs : List String
  deriving DecidableEq

/-- The message written for an unrecognised option. -/
def unrecognizedOption (arg : String) : String :=
  "ERROR: Unrecognized check-recycler option: " ++ arg ++ "\n"
    ++ "Supported options:\n"
    ++ "  -fix          Fix missing write barrier annotations"
    ++ "  -verbose      Log verbose messages\n"

/-- The member `ParseArgs`: the returned value and the state it leaves. -/
def ParseArgs (action : RecyclerCheckerAction) : List String → Bool × RecyclerCheckerAction
  | [] => (true, action)
  | i :: rest =>
    if i = "-verbose" then
      ParseArgs { action with verbose := true } rest
    else if i = "-fix" then
      ParseArgs { action with _fix := true } rest
    else
      (false, { action with errs := action.errs ++ [unrecognizedOption i] })

/-! ## Lemmas on the containers -/

theorem mapFind_mapUpdate {κ ν : Type} [DecidableEq κ] (k k' : κ) (f : ν → ν)
    (m : List (κ × ν)) :
    mapFind k (mapUpdate k' f m) = if k = k' then (mapFind k m).map f else mapFind k m := by
  induction m with
  | nil => simp [mapUpdate, mapFind]
  | cons hd tl ih =>
    obtain ⟨a, v⟩ := hd
    by_cases h1 : k' = a
    · subst h1
      by_cases h2 : k = k'
      · subst h2; simp [mapUpdate, mapFind]
      · simp [mapUpdate, mapFind, h2]
    · by_cases h2 : k = a
      · subst h2
        have h3 : ¬ k = k' := fun h => h1 h.symm
        simp [mapUpdate, mapFind, h1, h3]
      · simp [mapUpdate, mapFind, h1, h2, ih]

theorem mapFind_orderedInsert {κ ν : Type} [DecidableEq κ] (r : κ × ν → κ × ν → Prop)
    [DecidableRel r] (k k' : κ) (v : ν) (m : List (κ × ν)) (hm : mapFind k' m = none) :
    mapFind k (m.orderedInsert r (k', v)) = if k = k' then some v else mapFind k m := by
  induction m with
  | nil => simp [mapFind]
  | cons hd tl ih =>
    obtain ⟨a, w⟩ := hd
    have ha : ¬ k' = a := by
      intro h
      simp [mapFind, h] at hm
    have htl : mapFind k' tl = none := by
      simpa [mapFind, ha] using hm
    rw [List.orderedInsert]
    split
    · simp [mapFind]
    · by_cases h2 : k = a
      · subst h2
        have h3 : ¬ k = k' := fun h => ha h.symm
        simp [mapFind, h3]
      · simp [mapFind, h2, ih htl]

/-- Reading a map after `m[k'] = f (m[k'])`. -/
theorem mapFind_mapModify {κ ν : Type} [DecidableEq κ] (less : κ → κ → Prop)
    [DecidableRel less] (k k' : κ) (dflt : ν) (f : ν → ν) (m : List (κ × ν)) :
    mapFind k (mapModify less k' dflt f m) =
      if k = k' then some (f ((mapFind k' m).getD dflt)) else mapFind k m := by
  unfold mapModify
  cases hm : mapFind k' m with
  | none =>
    simp only [Option.getD_none]
    exact mapFind_orderedInsert _ k k' (f dflt) m hm
  | some w =>
    simp only [Option.getD_some]
    rw [mapFind_mapUpdate]
    by_cases h : k = k'
    · subst h; simp [hm]
    · simp [h]

theorem mem_setInsert {α : Type} [DecidableEq α] (less : α → α → Prop) [DecidableRel less]
    (x y : α) (s : List α) : y ∈ setInsert less x s ↔ y = x ∨ y ∈ s := by
  unfold setInsert
  split
  · rename_i h
    constructor
    · intro hy; exact Or.inr hy
    · rintro (rfl | hy)
      · exact h
      · exact hy
  · simp [List.mem_orderedInsert]

theorem stringFind_isSome_iff (needle s : List Char) :
    (stringFind needle s).isSome = true ↔ needle <:+: s := by
  induction s with
  | nil =>
    by_cases h : needle = []
    · simp [stringFind, h]
    · simp [stringFind, h]
  | cons c cs ih =>
    unfold stringFind
    by_cases h : needle.isPrefixOf (c :: cs) = true
    · simp only [h, if_true, Option.isSome_some, true_iff]
      exact (List.isPrefixOf_iff_prefix.mp h).isInfix
    · have h' : needle.isPrefixOf (c :: cs) = false := Bool.eq_false_iff.mpr h
      simp only [h', Bool.false_eq_true, if_false, Option.isSome_map']
      rw [ih, List.infix_cons_iff]
      constructor
      · intro hi; exact Or.inr hi
      · rintro (hp | hi)
        · exact absurd (List.isPrefixOf_iff_prefix.mpr hp) h
        · exact hi

theorem or_and_self_of_and (k a w : Nat) (h : k &&& w = w) : (k ||| a) &&& w = w := by
  apply Nat.eq_of_testBit_eq
  intro i
  have hi : (k &&& w).testBit i = w.testBit i := by rw [h]
  rw [Nat.testBit_and] at hi
  rw [Nat.testBit_and, Nat.testBit_or]
  cases hk : k.testBit i <;> cases hw : w.testBit i <;> simp_all

theorem or_self_and (k w : Nat) : (k ||| w) &&& w = w := by
  apply Nat.eq_of_testBit_eq
  intro i
  rw [Nat.testBit_and, Nat.testBit_or]
  cases k.testBit i <;> cases w.testBit i <;> rfl

/-! ## Allocation classifier: properties -/

/-- Every visit leaves the allocation-kind map alone or unions one kind into
the entry of the allocated type. -/
theorem VisitCXXNewExpr_allocationTypes (E : AllocationTypes) (mv : MainVisitor)
    (e : CXXNewExpr) :
    (VisitCXXNewExpr E mv e)._allocationTypes = mv._allocationTypes ∨
    ∃ kind, (VisitCXXNewExpr E mv e)._allocationTypes =
      mapModify ptrLess e.allocatedType.canonicalTypePtr 0 (fun k => k ||| kind)
        mv._allocationTypes := by
  unfold VisitCXXNewExpr
  dsimp only
  repeat' split
  all_goals first | exact Or.inl rfl | exact Or.inr ⟨_, rfl⟩

/-- A site of the barrier shape unions `WriteBarrier` into the entry of the
allocated type. -/
theorem VisitCXXNewExpr_barrier_site (E : AllocationTypes) (mv : MainVisitor)
    (T : QualType) (f : String) (more : List Expr)
    (hf : "WithBarrier".data <:+: f.data) :
    (VisitCXXNewExpr E mv
      ⟨.CXXStaticCastExpr (some "Recycler") ::
        .UnaryOperator .UO_AddrOf (.DeclRefExpr f) :: more, T⟩)._allocationTypes =
      mapModify ptrLess T.canonicalTypePtr 0 (fun k => k ||| E.WriteBarrier)
        mv._allocationTypes := by
  have hfind : (stringFind "WithBarrier".data f.data).isSome = true :=
    (stringFind_isSome_iff _ _).mpr hf
  simp [VisitCXXNewExpr, CXXNewExpr.getNumPlacementArgs, CXXNewExpr.getPlacementArg,
    Expr.asCXXStaticCastExpr, Expr.asUnaryOperator, Expr.asDeclRefExpr, CheckAllocationType,
    hfind, RecordAllocation, RecordRecyclerAllocation]

/-- A type whose accumulated kind includes `WriteBarrier` keeps it through
any further visit. -/
theorem VisitCXXNewExpr_keeps_flag (E : AllocationTypes) (mv : MainVisitor) (e : CXXNewExpr)
    (T : Nat) (h : ∃ k, mapFind T mv._allocationTypes = some k ∧
      k &&& E.WriteBarrier = E.WriteBarrier) :
    ∃ k, mapFind T (VisitCXXNewExpr E mv e)._allocationTypes = some k ∧
      k &&& E.WriteBarrier = E.WriteBarrier := by
  obtain ⟨k, hk, hw⟩ := h
  rcases VisitCXXNewExpr_allocationTypes E mv e with h0 | ⟨kind, h1⟩
  · rw [h0]; exact ⟨k, hk, hw⟩
  · rw [h1, mapFind_mapModify]
    by_cases hT : T = e.allocatedType.canonicalTypePtr
    · subst hT
      refine ⟨k ||| kind, ?_, or_and_self_of_and k kind _ hw⟩
      simp [hk]
    · simp only [hT, if_false]
      exact ⟨k, hk, hw⟩

theorem VisitCXXNewExprs_keeps_flag (E : AllocationTypes) (sites : List CXXNewExpr)
    (mv : MainVisitor) (T : Nat)
    (h : ∃ k, mapFind T mv._allocationTypes = some k ∧
      k &&& E.WriteBarrier = E.WriteBarrier) :
    ∃ k, mapFind T (VisitCXXNewExprs E mv sites)._allocationTypes = some k ∧
      k &&& E.WriteBarrier = E.WriteBarrier := by
  induction sites generalizing mv with
  | nil => exact h
  | cons e rest ih =>
    exact ih (VisitCXXNewExpr E mv e) (VisitCXXNewExpr_keeps_flag E mv e T h)

/-- C1: for every sequence of `new` expressions visited from any starting
state and every canonical type `T`, if some site of the sequence constructs
`T` through the recognised barrier shape (a static cast to "Recycler" followed
by the address of a function whose name contains "WithBarrier"), then the
kind accumulated for `T` after the pass includes the `WriteBarrier` flag,
whatever the other sites are. -/
theorem writeBarrier_flag_accumulated (E : AllocationTypes) (mv : MainVisitor)
    (sites : List CXXNewExpr) (T : Nat)
    (h : ∃ e ∈ sites, e.allocatedType.canonicalTypePtr = T ∧
      ∃ f more, e.placementArgs = .CXXStaticCastExpr (some "Recycler") ::
          .UnaryOperator .UO_AddrOf (.DeclRefExpr f) :: more ∧
        "WithBarrier".data <:+: f.data) :
    ∃ k, mapFind T (VisitCXXNewExprs E mv sites)._allocationTypes = some k ∧
      k &&& E.WriteBarrier = E.WriteBarrier := by
  induction sites generalizing mv with
  | nil =>
    obtain ⟨e, he, _⟩ := h
    exact absurd he (List.not_mem_nil e)
  | cons s rest ih =>
    obtain ⟨e, he, hT, f, more, hargs, hf⟩ := h
    rcases List.mem_cons.mp he with hes | her
    · subst hes
      apply VisitCXXNewExprs_keeps_flag E rest (VisitCXXNewExpr E mv e) T
      obtain ⟨args, ty⟩ := e
      simp only at hargs hT
      subst hargs
      rw [VisitCXXNewExpr_barrier_site E mv ty f more hf, mapFind_mapModify, hT]
      exact ⟨(mapFind T mv._allocationTypes).getD 0 ||| E.WriteBarrier, by simp,
        or_self_and _ _⟩
    · exact ih (VisitCXXNewExpr E mv s) ⟨e, her, hT, f, more, hargs, hf⟩

/-- Witness of C1: a barrier site between two other sites of the same type. -/
theorem writeBarrier_flag_accumulated_witness :
    ∃ k, mapFind 7 (VisitCXXNewExprs ⟨0, 1, 2, 4⟩ (MainVisitor.init false)
      [⟨[.CXXStaticCastExpr (some "ArenaAllocator"), .Other], ⟨"Foo", 7, false, true, 0⟩⟩,
       ⟨[.CXXStaticCastExpr (some "Recycler"),
          .UnaryOperator .UO_AddrOf (.DeclRefExpr "AllocWithBarrier")],
          ⟨"Foo", 7, false, true, 0⟩⟩,
       ⟨[.CXXStaticCastExpr (some "Recycler"),
          .UnaryOperator .UO_AddrOf (.DeclRefExpr "Alloc")],
          ⟨"Foo", 7, false, true, 0⟩⟩])._allocationTypes = some k ∧
      k &&& 4 = 4 :=
  writeBarrier_flag_accumulated ⟨0, 1, 2, 4⟩ (MainVisitor.init false) _ 7
    ⟨⟨[.CXXStaticCastExpr (some "Recycler"),
          .UnaryOperator .UO_AddrOf (.DeclRefExpr "AllocWithBarrier")],
          ⟨"Foo", 7, false, true, 0⟩⟩,
      by simp, rfl, "AllocWithBarrier", [], rfl, ⟨"Alloc".data, [], by decide⟩⟩

/-- C4: a `new` expression with fewer than two placement arguments, whatever
they are, leaves the allocation-kind map and the allocator-function map
exactly as they were. -/
theorem fewer_than_two_placement_args_unrecorded (E : AllocationTypes) (mv : MainVisitor)
    (e : CXXNewExpr) (h : e.getNumPlacementArgs < 2) :
    (VisitCXXNewExpr E mv e)._allocationTypes = mv._allocationTypes ∧
    (VisitCXXNewExpr E mv e)._allocatorTypeMap = mv._allocatorTypeMap := by
  have h' : ¬ e.getNumPlacementArgs > 1 := by omega
  simp [VisitCXXNewExpr, h']

/-- Witness of C4: one placement argument of the barrier-cast shape, on a
state that already holds entries. -/
theorem fewer_than_two_placement_args_unrecorded_witness :
    (VisitCXXNewExpr ⟨0, 1, 2, 4⟩
        { MainVisitor.init false with _allocationTypes := [(3, 1)] }
        ⟨[.CXXStaticCastExpr (some "Recycler")], ⟨"Foo", 7, false, true, 0⟩⟩)._allocationTypes
      = [(3, 1)] ∧
    (VisitCXXNewExpr ⟨0, 1, 2, 4⟩
        { MainVisitor.init false with _allocationTypes := [(3, 1)] }
        ⟨[.CXXStaticCastExpr (some "Recycler")], ⟨"Foo", 7, false, true, 0⟩⟩)._allocatorTypeMap
      = [] :=
  fewer_than_two_placement_args_unrecorded ⟨0, 1, 2, 4⟩
    { MainVisitor.init false with _allocationTypes := [(3, 1)] }
    ⟨[.CXXStaticCastExpr (some "Recycler")], ⟨"Foo", 7, false, true, 0⟩⟩ (by decide)

/-- The field loop computes the two flags of the specification, on top of the
flags it starts from. -/
theorem foldl_classifyField (mv : MainVisitor) (fields : List FieldDecl) (flags : Bool × Bool) :
    fields.foldl (classifyField mv) flags =
      (flags.1 || specHasUnbarrieredPointer mv ⟨"", true, fields⟩,
       flags.2 || specHasBarrieredField mv ⟨"", true, fields⟩) := by
  induction fields generalizing flags with
  | nil => simp [specHasUnbarrieredPointer, specHasBarrieredField]
  | cons fld rest ih =>
    rw [List.foldl_cons, ih]
    obtain ⟨u, b⟩ := flags
    simp only [specHasUnbarrieredPointer, specHasBarrieredField, List.any_cons, classifyField,
      isBarrierSpelled]
    cases StartsWith fld.type.asString.data "typename WriteBarrierFieldTypeTraits".data <;>
    cases StartsWith fld.type.asString.data
      "const typename WriteBarrierFieldTypeTraits".data <;>
    cases fld.type.isPointerType <;>
    cases fld.type.isCompoundType <;>
    cases Contains mv._pointerClasses fld.type.asString <;>
    cases Contains mv._barrieredClasses fld.type.asString <;>
    cases u <;> cases b <;> simp

/-- C8: the field classification rule. For a record with a visible definition
visited once the barrier marker has been seen, the unbarriered-pointer flag
computed by the field loop is the one the specification words (some field
that is not barrier-spelled is a raw pointer or a compound type named in
PointerClassSet), the barriered flag likewise (some field is barrier-spelled,
or is a non-pointer compound type named in BarrieredClassSet and not in
PointerClassSet); and the unbarriered-pointer flag has priority: if it is set
the name goes into PointerClassSet only, else if the barriered flag is set
the name goes into BarrieredClassSet only, else neither set changes. -/
theorem field_classification_rule (mv : MainVisitor) (R : CXXRecordDecl)
    (hseen : mv._barrierTypeDefined = true) (hdef : R.hasDefinition = true) :
    R.fields.foldl (classifyField mv) (false, false) =
      (specHasUnbarrieredPointer mv R, specHasBarrieredField mv R) ∧
    (specHasUnbarrieredPointer mv R = true →
      (VisitCXXRecordDecl mv R)._pointerClasses =
          setInsert stringLess R.qualifiedNameAsString mv._pointerClasses ∧
        (VisitCXXRecordDecl mv R)._barrieredClasses = mv._barrieredClasses) ∧
    (specHasUnbarrieredPointer mv R = false → specHasBarrieredField mv R = true →
      (VisitCXXRecordDecl mv R)._pointerClasses = mv._pointerClasses ∧
        (VisitCXXRecordDecl mv R)._barrieredClasses =
          setInsert stringLess R.qualifiedNameAsString mv._barrieredClasses) ∧
    (specHasUnbarrieredPointer mv R = false → specHasBarrieredField mv R = false →
      (VisitCXXRecordDecl mv R)._pointerClasses = mv._pointerClasses ∧
        (VisitCXXRecordDecl mv R)._barrieredClasses = mv._barrieredClasses) := by
  have hfold : R.fields.foldl (classifyField mv) (false, false) =
      (specHasUnbarrieredPointer mv R, specHasBarrieredField mv R) := by
    rw [foldl_classifyField]
    simp [specHasUnbarrieredPointer, specHasBarrieredField]
  have hfold' : R.fields.foldl
      (classifyField { mv with _barrierTypeDefined := true }) (false, false) =
      (specHasUnbarrieredPointer mv R, specHasBarrieredField mv R) := by
    rw [foldl_classifyField]
    simp [specHasUnbarrieredPointer, specHasBarrieredField]
  refine ⟨hfold, ?_, ?_, ?_⟩
  · intro hu
    simp [VisitCXXRecordDecl, hseen, hdef, hfold', hu]
  · intro hu hb
    simp [VisitCXXRecordDecl, hseen, hdef, hfold', hu, hb]
  · intro hu hb
    simp [VisitCXXRecordDecl, hseen, hdef, hfold', hu, hb]

/-- Witness of C8: a record whose only pointer-bearing field is a compound
member already classified as barriered goes into BarrieredClassSet. -/
theorem field_classification_rule_witness :
    (VisitCXXRecordDecl
      { MainVisitor.init false with
        _barrierTypeDefined := true, _pointerClasses := ["P"], _barrieredClasses := ["Q"] }
      ⟨"R", true, [⟨⟨"Q", 11, false, true, 0⟩, "m_q", 40, "Q m_q;".data⟩,
        ⟨⟨"int", 12, false, false, 0⟩, "m_i", 48, "int m_i;".data⟩]⟩)._barrieredClasses =
      ["Q", "R"] :=
  ((field_classification_rule
      { MainVisitor.init false with
        _barrierTypeDefined := true, _pointerClasses := ["P"], _barrieredClasses := ["Q"] }
      ⟨"R", true, [⟨⟨"Q", 11, false, true, 0⟩, "m_q", 40, "Q m_q;".data⟩,
        ⟨⟨"int", 12, false, false, 0⟩, "m_i", 48, "int m_i;".data⟩]⟩ rfl rfl).2.2.1
    (by decide) (by decide)).2.trans (by decide)

/-- A visit changes at most one of the two sets, and only by inserting the
name of the visited record. -/
theorem VisitCXXRecordDecl_sets (mv : MainVisitor) (R : CXXRecordDecl) :
    ((VisitCXXRecordDecl mv R)._pointerClasses = mv._pointerClasses ∧
      (VisitCXXRecordDecl mv R)._barrieredClasses = mv._barrieredClasses) ∨
    ((VisitCXXRecordDecl mv R)._pointerClasses =
        setInsert stringLess R.qualifiedNameAsString mv._pointerClasses ∧
      (VisitCXXRecordDecl mv R)._barrieredClasses = mv._barrieredClasses) ∨
    ((VisitCXXRecordDecl mv R)._pointerClasses = mv._pointerClasses ∧
      (VisitCXXRecordDecl mv R)._barrieredClasses =
        setInsert stringLess R.qualifiedNameAsString mv._barrieredClasses) := by
  unfold VisitCXXRecordDecl
  dsimp only
  repeat' split
  all_goals first
    | exact Or.inl ⟨rfl, rfl⟩
    | exact Or.inr (Or.inl ⟨rfl, rfl⟩)
    | exact Or.inr (Or.inr ⟨rfl, rfl⟩)

/-- Disjointness of the two sets is kept by a pass over declarations whose
names are pairwise distinct and not yet in either set. -/
theorem VisitCXXRecordDecls_disjoint (decls : List CXXRecordDecl) (mv : MainVisitor)
    (hnodup : (decls.map fun R => R.qualifiedNameAsString).Nodup)
    (hfresh : ∀ R ∈ decls, R.qualifiedNameAsString ∉ mv._pointerClasses ∧
      R.qualifiedNameAsString ∉ mv._barrieredClasses)
    (hdisj : ∀ n, ¬ (n ∈ mv._pointerClasses ∧ n ∈ mv._barrieredClasses)) :
    ∀ n, ¬ (n ∈ (VisitCXXRecordDecls mv decls)._pointerClasses ∧
      n ∈ (VisitCXXRecordDecls mv decls)._barrieredClasses) := by
  induction decls generalizing mv with
  | nil => exact hdisj
  | cons R rest ih =>
    have hR := hfresh R (List.mem_cons_self _ _)
    rw [List.map_cons, List.nodup_cons] at hnodup
    obtain ⟨hRrest, hnodup'⟩ := hnodup
    have hne : ∀ S ∈ rest, S.qualifiedNameAsString ≠ R.qualifiedNameAsString := by
      intro S hS heq
      exact hRrest (List.mem_map.mpr ⟨S, hS, heq⟩)
    have hS := fun S (h : S ∈ rest) => hfresh S (List.mem_cons_of_mem _ h)
    show ∀ n, ¬ (n ∈ (VisitCXXRecordDecls (VisitCXXRecordDecl mv R) rest)._pointerClasses ∧
      n ∈ (VisitCXXRecordDecls (VisitCXXRecordDecl mv R) rest)._barrieredClasses)
    apply ih _ hnodup'
    · intro S hSr
      rcases VisitCXXRecordDecl_sets mv R with ⟨hp, hb⟩ | ⟨hp, hb⟩ | ⟨hp, hb⟩
      · rw [hp, hb]; exact hS S hSr
      · rw [hp, hb, mem_setInsert]
        exact ⟨fun h => h.elim (hne S hSr) (hS S hSr).1, (hS S hSr).2⟩
      · rw [hp, hb, mem_setInsert]
        exact ⟨(hS S hSr).1, fun h => h.elim (hne S hSr) (hS S hSr).2⟩
    · intro n
      rcases VisitCXXRecordDecl_sets mv R with ⟨hp, hb⟩ | ⟨hp, hb⟩ | ⟨hp, hb⟩
      · rw [hp, hb]; exact hdisj n
      · rw [hp, hb, mem_setInsert]
        rintro ⟨h1 | h1, h2⟩
        · subst h1; exact hR.2 h2
        · exact hdisj n ⟨h1, h2⟩
      · rw [hp, hb, mem_setInsert]
        rintro ⟨h1, h2 | h2⟩
        · subst h2; exact hR.1 h1
        · exact hdisj n ⟨h1, h2⟩

/-- Counterexample to C2 as stated: after the marker, two declarations with a
visible definition share the qualified name `Foo` (as two explicit
specialisations of one template do); the first has a raw pointer field, the
second a barrier-spelled field. The name `Foo` ends in both sets. -/
theorem same_name_in_both_sets :
    "Foo" ∈ (VisitCXXRecordDecls (MainVisitor.init false)
      [⟨"Memory::NoWriteBarrierField", true, []⟩,
       ⟨"Foo", true, [⟨⟨"int *", 21, true, true, 22⟩, "m_p", 100, "int* m_p;".data⟩]⟩,
       ⟨"Foo", true, [⟨⟨"typename WriteBarrierFieldTypeTraits<char *>::Type", 23, false, true,
          0⟩, "m_q", 200, "Field(char*) m_q;".data⟩]⟩])._pointerClasses ∧
    "Foo" ∈ (VisitCXXRecordDecls (MainVisitor.init false)
      [⟨"Memory::NoWriteBarrierField", true, []⟩,
       ⟨"Foo", true, [⟨⟨"int *", 21, true, true, 22⟩, "m_p", 100, "int* m_p;".data⟩]⟩,
       ⟨"Foo", true, [⟨⟨"typename WriteBarrierFieldTypeTraits<char *>::Type", 23, false, true,
          0⟩, "m_q", 200, "Field(char*) m_q;".data⟩]⟩])._barrieredClasses := by
  decide

/-- C2, amended: for every sequence of record declarations whose qualified
names are pairwise distinct, fed to `VisitCXXRecordDecl` from the empty state,
no name is in both PointerClassSet and BarrieredClassSet after the pass. -/
theorem classes_disjoint_of_distinct_names ( fix : Bool) (decls : List CXXRecordDecl)
    (hnodup : (decls.map fun R => R.qualifiedNameAsString).Nodup) :
    ∀ n, ¬ (n ∈ (VisitCXXRecordDecls (MainVisitor.init fix) decls)._pointerClasses ∧
      n ∈ (VisitCXXRecordDecls (MainVisitor.init fix) decls)._barrieredClasses) :=
  VisitCXXRecordDecls_disjoint decls (MainVisitor.init fix) hnodup
    (fun _ _ => ⟨List.not_mem_nil _, List.not_mem_nil _⟩)
    (fun _ h => List.not_mem_nil _ h.1)

/-- Witness of amended C2: the marker, a record with a raw pointer and a
record with a barrier-spelled field, all of different names. -/
theorem classes_disjoint_of_distinct_names_witness :
    (["Memory::NoWriteBarrierField", "Foo", "Bar"] : List String).Nodup ∧
    ∀ n, ¬ (n ∈ (VisitCXXRecordDecls (MainVisitor.init false)
      [⟨"Memory::NoWriteBarrierField", true, []⟩,
       ⟨"Foo", true, [⟨⟨"int *", 21, true, true, 22⟩, "m_p", 100, "int* m_p;".data⟩]⟩,
       ⟨"Bar", true, [⟨⟨"typename WriteBarrierFieldTypeTraits<char *>::Type", 23, false, true,
          0⟩, "m_q", 200, "Field(char*) m_q;".data⟩]⟩])._pointerClasses ∧
      n ∈ (VisitCXXRecordDecls (MainVisitor.init false)
      [⟨"Memory::NoWriteBarrierField", true, []⟩,
       ⟨"Foo", true, [⟨⟨"int *", 21, true, true, 22⟩, "m_p", 100, "int* m_p;".data⟩]⟩,
       ⟨"Bar", true, [⟨⟨"typename WriteBarrierFieldTypeTraits<char *>::Type", 23, false, true,
          0⟩, "m_q", 200, "Field(char*) m_q;".data⟩]⟩])._barrieredClasses) :=
  ⟨by decide,
   classes_disjoint_of_distinct_names false
      [⟨"Memory::NoWriteBarrierField", true, []⟩,
       ⟨"Foo", true, [⟨⟨"int *", 21, true, true, 22⟩, "m_p", 100, "int* m_p;".data⟩]⟩,
       ⟨"Bar", true, [⟨⟨"typename WriteBarrierFieldTypeTraits<char *>::Type", 23, false, true,
          0⟩, "m_q", 200, "Field(char*) m_q;".data⟩]⟩] (by decide)⟩

/-! ## Type-name matcher: properties -/

theorem SkipPrefix_append (T rest : List Char) : SkipPrefix (T ++ rest) T = some rest := by
  have h : StartsWith (T ++ rest) T = true := by
    unfold StartsWith
    exact List.isPrefixOf_iff_prefix.mpr (List.prefix_append T rest)
  simp [SkipPrefix, h]

theorem SkipPrefix_eq_some (p pre rest : List Char) (h : SkipPrefix p pre = some rest) :
    p = pre ++ rest := by
  unfold SkipPrefix at h
  split at h
  · rename_i hs
    unfold StartsWith at hs
    obtain ⟨t, ht⟩ := List.isPrefixOf_iff_prefix.mp hs
    simp only [Option.some.injEq] at h
    subst ht
    simp at h
    rw [h]
  · simp at h

theorem matchLoop_zero (p source : List Char) :
    matchLoop 0 p source =
      if p ≠ [] ∧ source ≠ [] then none
      else if p = [] ∧ source ≠ [] then some (some source) else some none := by
  rw [matchLoop]

theorem matchLoop_succ_eq (fuel : Nat) (p source : List Char) :
    matchLoop (fuel + 1) p source =
      if p ≠ [] ∧ source ≠ [] then
        match matchBody p source with
        | .next p' source' => matchLoop fuel p' source'
        | .mismatch => some none
      else if p = [] ∧ source ≠ [] then some (some source) else some none := by
  rw [matchLoop]

theorem matchLoop_succ (fuel : Nat) (p source : List Char) (r : Option (List Char))
    (h : matchLoop fuel p source = some r) : matchLoop (fuel + 1) p source = some r := by
  induction fuel generalizing p source with
  | zero =>
    rw [matchLoop_zero] at h
    rw [matchLoop_succ_eq]
    by_cases hc : p ≠ [] ∧ source ≠ []
    · rw [if_pos hc] at h
      exact absurd h (by simp)
    · rw [if_neg hc] at h ⊢
      exact h
  | succ n ih =>
    rw [matchLoop_succ_eq] at h
    rw [matchLoop_succ_eq]
    by_cases hc : p ≠ [] ∧ source ≠ []
    · rw [if_pos hc] at h ⊢
      cases hb : matchBody p source with
      | next p' source' =>
        simp only [hb] at h ⊢
        exact ih p' source' h
      | mismatch =>
        simp only [hb] at h ⊢
        exact h
    · rw [if_neg hc] at h ⊢
      exact h

/-- More iterations do not change a result already returned. -/
theorem matchLoop_mono (fuel k : Nat) (p source : List Char) (r : Option (List Char))
    (h : matchLoop fuel p source = some r) : matchLoop (fuel + k) p source = some r := by
  induction k with
  | zero => exact h
  | succ k ih => exact matchLoop_succ (fuel + k) p source r ih

theorem MatchType_mono (fuel k : Nat) (type source : List Char) (r : Option (List Char))
    (h : MatchType fuel type source = some r) : MatchType (fuel + k) type source = some r := by
  unfold MatchType at h ⊢
  split
  · rename_i hs
    simpa [hs] using h
  · rename_i hs
    simp only [hs] at h
    split
    · rename_i hb
      simpa [hb] using h
    · rename_i hb
      simp only [hb] at h
      exact matchLoop_mono fuel k type source r h

/-- C5: matcher round trip. When the source text spells the declared type
`T` exactly and goes on with `rest` (the field's name and the trailing
tokens), `MatchType` succeeds, whatever the bound on its loop, and the
unconsumed remainder of the source is exactly `rest`. -/
theorem MatchType_roundtrip (fuel : Nat) (T rest : List Char) :
    MatchType fuel T (T ++ rest) = some (some rest) := by
  simp [MatchType, SkipPrefix_append]

/-- C6: matcher tolerance on the two documented inputs. With three or more
loop iterations allowed, `MatchType("const Foo::Bar*", "Bar* m_x;")` succeeds
with remainder `" m_x;"`, its three iterations skipping `const `, then
`Foo::`, both on the declared-type side only, then matching `Bar*`; and `MatchType("Baz<int>", "Baz<int> arr[4];")`
succeeds, with remainder `" arr[4];"`, without entering the loop. -/
theorem MatchType_tolerance (n : Nat) :
    MatchType (3 + n) "const Foo::Bar*".data "Bar* m_x;".data = some (some " m_x;".data) ∧
    matchBody "const Foo::Bar*".data "Bar* m_x;".data =
      .next "Foo::Bar*".data "Bar* m_x;".data ∧
    matchBody "Foo::Bar*".data "Bar* m_x;".data = .next "Bar*".data "Bar* m_x;".data ∧
    matchBody "Bar*".data "Bar* m_x;".data = .next [] " m_x;".data ∧
    MatchType n "Baz<int>".data "Baz<int> arr[4];".data = some (some " arr[4];".data) :=
  ⟨MatchType_mono 3 n _ _ _ (by decide), by decide, by decide, by decide, by
    show MatchType n "Baz<int>".data ("Baz<int>".data ++ " arr[4];".data) = _
    simp only [MatchType, SkipPrefix_append]⟩

/-- A success of the loop comes from a run of iterations that ends with the
declared type used up and source text left. -/
theorem matchLoop_success (fuel : Nat) (p source rest : List Char)
    (h : matchLoop fuel p source = some (some rest)) :
    rest ≠ [] ∧ Relation.ReflTransGen loopStep (p, source) ([], rest) := by
  induction fuel generalizing p source with
  | zero =>
    rw [matchLoop_zero] at h
    by_cases hc : p ≠ [] ∧ source ≠ []
    · rw [if_pos hc] at h
      exact absurd h (by simp)
    · rw [if_neg hc] at h
      by_cases hd : p = [] ∧ source ≠ []
      · rw [if_pos hd] at h
        simp only [Option.some.injEq] at h
        subst h
        rw [hd.1]
        exact ⟨hd.2, Relation.ReflTransGen.refl⟩
      · rw [if_neg hd] at h
        exact absurd h (by simp)
  | succ n ih =>
    rw [matchLoop_succ_eq] at h
    by_cases hc : p ≠ [] ∧ source ≠ []
    · rw [if_pos hc] at h
      cases hb : matchBody p source with
      | next p' source' =>
        simp only [hb] at h
        obtain ⟨h1, h2⟩ := ih p' source' h
        exact ⟨h1, Relation.ReflTransGen.head ⟨hc.1, hc.2, hb⟩ h2⟩
      | mismatch =>
        simp only [hb] at h
        exact absurd h (by simp)
    · rw [if_neg hc] at h
      by_cases hd : p = [] ∧ source ≠ []
      · rw [if_pos hd] at h
        simp only [Option.some.injEq] at h
        subst h
        rw [hd.1]
        exact ⟨hd.2, Relation.ReflTransGen.refl⟩
      · rw [if_neg hd] at h
        exact absurd h (by simp)

/-- A run of iterations that uses up the source text, or meets a mismatch,
makes the loop return false. -/
theorem matchLoop_failure (a b : List Char × List Char)
    (hreach : Relation.ReflTransGen loopStep a b)
    (hend : b.2 = [] ∨ (b.1 ≠ [] ∧ b.2 ≠ [] ∧ matchBody b.1 b.2 = .mismatch)) :
    ∃ fuel, matchLoop fuel a.1 a.2 = some none := by
  induction hreach using Relation.ReflTransGen.head_induction_on with
  | refl =>
    rcases hend with h0 | ⟨h1, h2, h3⟩
    · refine ⟨0, ?_⟩
      rw [matchLoop_zero, if_neg (fun hc => hc.2 h0), if_neg (fun hc => hc.2 h0)]
    · refine ⟨1, ?_⟩
      rw [matchLoop_succ_eq, if_pos ⟨h1, h2⟩, h3]
  | head hstep _ ih =>
    obtain ⟨fuel, hf⟩ := ih
    obtain ⟨h1, h2, h3⟩ := hstep
    refine ⟨fuel + 1, ?_⟩
    rw [matchLoop_succ_eq, if_pos ⟨h1, h2⟩, h3]
    exact hf

theorem MatchType_eq_matchLoop (fuel : Nat) (T S : List Char) (h1 : ¬ T <+: S)
    (h2 : ¬ (T = "_Bool".data ∧ "bool".data <+: S)) :
    MatchType fuel T S = matchLoop fuel T S := by
  have hs : SkipPrefix S T = none := by
    unfold SkipPrefix StartsWith
    rw [if_neg]
    intro hp
    exact h1 (List.isPrefixOf_iff_prefix.mp hp)
  have hb : (if T = "_Bool".data then SkipPrefix S "bool".data else none) = none := by
    by_cases hT : T = "_Bool".data
    · rw [if_pos hT]
      unfold SkipPrefix StartsWith
      rw [if_neg]
      intro hp
      exact h2 ⟨hT, List.isPrefixOf_iff_prefix.mp hp⟩
    · rw [if_neg hT]
  unfold MatchType
  rw [hs]
  simp only [hb]

/-- Counterexample to C7 as stated: the source text is the declared type and
nothing more. The direct prefix test succeeds and the remainder is empty: a
success with no source text left after the matched span. -/
theorem MatchType_success_with_empty_remainder :
    MatchType 100 "int".data "int".data = some (some []) := by
  decide

/-- C7, amended: `MatchType` returns success either from the direct prefix
test (the source starts with the declared type, or the declared type is
`_Bool` and the source starts with `bool`), where the remainder is what
follows and may be empty, or from the lock-step loop, and then only when a run
of iterations has consumed the entire declared-type string and source text
remains (the remainder is not empty). When the direct test fails and a run of
iterations uses up the source text (with declared-type text left or not) or
meets a character mismatch, the result is no-match. -/
theorem MatchType_success_only_when_consumed (fuel : Nat) (T S : List Char) :
    (∀ rest, MatchType fuel T S = some (some rest) →
      S = T ++ rest ∨ (T = "_Bool".data ∧ S = "bool".data ++ rest) ∨
      (rest ≠ [] ∧ Relation.ReflTransGen loopStep (T, S) ([], rest))) ∧
    (¬ T <+: S → ¬ (T = "_Bool".data ∧ "bool".data <+: S) →
      ∀ p source, Relation.ReflTransGen loopStep (T, S) (p, source) →
        (source = [] ∨ (p ≠ [] ∧ source ≠ [] ∧ matchBody p source = .mismatch)) →
        (∃ enough, MatchType enough T S = some none) ∧
        ∀ rest, MatchType fuel T S ≠ some (some rest)) := by
  constructor
  · intro rest h
    unfold MatchType at h
    cases hs : SkipPrefix S T with
    | some s' =>
      simp only [hs, Option.some.injEq] at h
      subst h
      exact Or.inl (SkipPrefix_eq_some S T s' hs)
    | none =>
      simp only [hs] at h
      cases hb : (if T = "_Bool".data then SkipPrefix S "bool".data else none) with
      | some s' =>
        simp only [hb, Option.some.injEq] at h
        subst h
        by_cases hT : T = "_Bool".data
        · rw [if_pos hT] at hb
          exact Or.inr (Or.inl ⟨hT, SkipPrefix_eq_some S _ s' hb⟩)
        · rw [if_neg hT] at hb
          exact absurd hb (by simp)
      | none =>
        simp only [hb] at h
        exact Or.inr (Or.inr (matchLoop_success fuel T S rest h))
  · intro h1 h2 p source hreach hend
    obtain ⟨enough, he⟩ := matchLoop_failure (T, S) (p, source) hreach hend
    refine ⟨⟨enough, ?_⟩, ?_⟩
    · rw [MatchType_eq_matchLoop enough T S h1 h2]
      exact he
    · intro rest hr
      rw [MatchType_eq_matchLoop fuel T S h1 h2] at hr
      have e1 := matchLoop_mono fuel enough T S _ hr
      have e2 := matchLoop_mono enough fuel T S _ he
      rw [Nat.add_comm] at e2
      rw [e1] at e2
      exact absurd e2 (by simp)

/-- Witness of amended C7: the declared type `int *` against the source text
`PINT p;` meets a mismatch in the first iteration. -/
theorem MatchType_success_only_when_consumed_witness :
    ¬ "int *".data <+: "PINT p;".data ∧
    (∃ enough, MatchType enough "int *".data "PINT p;".data = some none) ∧
    ∀ rest, MatchType 0 "int *".data "PINT p;".data ≠ some (some rest) :=
  ⟨by decide,
   (MatchType_success_only_when_consumed 0 "int *".data "PINT p;".data).2
      (by decide) (by decide) _ _ Relation.ReflTransGen.refl
      (Or.inr (by decide))⟩

/-! ## End to end: lemmas -/

theorem mapFind_mem {κ ν : Type} [DecidableEq κ] (k : κ) (v : ν) (m : List (κ × ν))
    (h : mapFind k m = some v) : (k, v) ∈ m := by
  induction m with
  | nil => simp [mapFind] at h
  | cons hd tl ih =>
    obtain ⟨a, w⟩ := hd
    by_cases hk : k = a
    · subst hk
      simp [mapFind] at h
      subst h
      exact List.mem_cons_self _ _
    · simp [mapFind, hk] at h
      exact List.mem_cons_of_mem _ (ih h)

theorem mem_mapUpdate {κ ν : Type} [DecidableEq κ] (k : κ) (f : ν → ν) (m : List (κ × ν))
    (e : κ × ν) (h : e ∈ mapUpdate k f m) : e ∈ m ∨ ∃ v, (k, v) ∈ m ∧ e = (k, f v) := by
  induction m with
  | nil => simp [mapUpdate] at h
  | cons hd tl ih =>
    obtain ⟨a, w⟩ := hd
    by_cases hk : k = a
    · subst hk
      simp only [mapUpdate, if_true, List.mem_cons] at h
      rcases h with h | h
      · exact Or.inr ⟨w, List.mem_cons_self _ _, h⟩
      · exact Or.inl (List.mem_cons_of_mem _ h)
    · simp only [mapUpdate, hk, if_false, List.mem_cons] at h
      rcases h with h | h
      · exact Or.inl (h ▸ List.mem_cons_self _ _)
      · rcases ih h with h' | ⟨v, hv, he⟩
        · exact Or.inl (List.mem_cons_of_mem _ h')
        · exact Or.inr ⟨v, List.mem_cons_of_mem _ hv, he⟩

/-- An entry of a map after `m[k] = f (m[k])` is an old entry, or the entry
of `k` with `f` applied to its old or value-initialised value. -/
theorem mem_mapModify {κ ν : Type} [DecidableEq κ] (less : κ → κ → Prop) [DecidableRel less]
    (k : κ) (dflt : ν) (f : ν → ν) (m : List (κ × ν)) (e : κ × ν)
    (h : e ∈ mapModify less k dflt f m) :
    e ∈ m ∨ ∃ v, (v = dflt ∨ (k, v) ∈ m) ∧ e = (k, f v) := by
  unfold mapModify at h
  split at h
  · rcases mem_mapUpdate k f m e h with h' | ⟨v, hv, he⟩
    · exact Or.inl h'
    · exact Or.inr ⟨v, Or.inr hv, he⟩
  · rw [List.mem_orderedInsert] at h
    rcases h with h | h
    · exact Or.inr ⟨dflt, Or.inl rfl, h⟩
    · exact Or.inl h

theorem nodup_setInsert {α : Type} [DecidableEq α] (less : α → α → Prop) [DecidableRel less]
    (x : α) (s : List α) (h : s.Nodup) : (setInsert less x s).Nodup := by
  unfold setInsert
  split
  · exact h
  · rename_i hx
    exact (List.perm_orderedInsert less x s).nodup_iff.mpr (List.nodup_cons.mpr ⟨hx, h⟩)

theorem or_and_eq_zero (v n w : Nat) (hv : v &&& w = 0) (hn : n &&& w = 0) :
    (v ||| n) &&& w = 0 := by
  apply Nat.eq_of_testBit_eq
  intro i
  have h1 : (v &&& w).testBit i = false := by rw [hv]; exact Nat.zero_testBit i
  have h2 : (n &&& w).testBit i = false := by rw [hn]; exact Nat.zero_testBit i
  rw [Nat.testBit_and] at h1 h2
  rw [Nat.testBit_and, Nat.testBit_or, Nat.zero_testBit]
  cases hvi : v.testBit i <;> cases hni : n.testBit i <;> cases hwi : w.testBit i <;> simp_all

theorem mem_foldl_barrierTypes (E : AllocationTypes) (m : List (Nat × Nat)) (acc : List Nat)
    (x : Nat) :
    x ∈ m.foldl (fun acc item =>
        if item.2 &&& E.WriteBarrier ≠ 0 then setInsert ptrLess item.1 acc else acc) acc ↔
      x ∈ acc ∨ ∃ k, (x, k) ∈ m ∧ k &&& E.WriteBarrier ≠ 0 := by
  induction m generalizing acc with
  | nil => simp
  | cons hd tl ih =>
    obtain ⟨y, k⟩ := hd
    rw [List.foldl_cons, ih]
    dsimp only
    by_cases hk : k &&& E.WriteBarrier ≠ 0
    · rw [if_pos hk]
      simp only [mem_setInsert, List.mem_cons, Prod.mk.injEq]
      constructor
      · rintro ((h | h) | ⟨k', h1, h2⟩)
        · exact Or.inr ⟨k, Or.inl ⟨h, rfl⟩, hk⟩
        · exact Or.inl h
        · exact Or.inr ⟨k', Or.inr h1, h2⟩
      · rintro (h | ⟨k', ⟨h1, h1'⟩ | h1, h2⟩)
        · exact Or.inl (Or.inr h)
        · exact Or.inl (Or.inl h1)
        · exact Or.inr ⟨k', h1, h2⟩
    · rw [if_neg hk]
      simp only [List.mem_cons, Prod.mk.injEq]
      constructor
      · rintro (h | ⟨k', h1, h2⟩)
        · exact Or.inl h
        · exact Or.inr ⟨k', Or.inr h1, h2⟩
      · rintro (h | ⟨k', ⟨h1, h1'⟩ | h1, h2⟩)
        · exact Or.inl h
        · subst h1'; exact absurd h2 hk
        · exact Or.inr ⟨k', h1, h2⟩

/-- The members of `barrierTypes`: the types with an entry that has a bit of
`WriteBarrier`. -/
theorem mem_barrierTypes (E : AllocationTypes) (mv : MainVisitor) (x : Nat) :
    x ∈ barrierTypes E mv ↔ ∃ k, (x, k) ∈ mv._allocationTypes ∧ k &&& E.WriteBarrier ≠ 0 := by
  unfold barrierTypes
  rw [mem_foldl_barrierTypes]
  simp

theorem nodup_foldl_barrierTypes (E : AllocationTypes) (m : List (Nat × Nat)) (acc : List Nat)
    (h : acc.Nodup) :
    (m.foldl (fun acc item =>
        if item.2 &&& E.WriteBarrier ≠ 0 then setInsert ptrLess item.1 acc else acc)
      acc).Nodup := by
  induction m generalizing acc with
  | nil => exact h
  | cons hd tl ih =>
    rw [List.foldl_cons]
    apply ih
    split
    · exact nodup_setInsert _ _ _ h
    · exact h

theorem eq_singleton_of_nodup (l : List Nat) (a : Nat) (hnd : l.Nodup)
    (hmem : ∀ x, x ∈ l ↔ x = a) : l = [a] := by
  match l, hnd, hmem with
  | [], _, hmem => exact absurd ((hmem a).mpr rfl) (List.not_mem_nil a)
  | [x], _, hmem =>
    have hx : x = a := (hmem x).mp (List.mem_cons_self _ _)
    rw [hx]
  | x :: y :: rest, hnd, hmem =>
    have hx : x = a := (hmem x).mp (List.mem_cons_self _ _)
    have hy : y = a := (hmem y).mp (List.mem_cons_of_mem _ (List.mem_cons_self _ _))
    rw [List.nodup_cons] at hnd
    exact absurd (hx.trans hy.symm ▸ List.mem_cons_self _ _) hnd.1

theorem VisitCXXNewExpr_frame (E : AllocationTypes) (mv : MainVisitor) (e : CXXNewExpr) :
    (VisitCXXNewExpr E mv e)._fix = mv._fix ∧
    (VisitCXXNewExpr E mv e)._rewriter = mv._rewriter ∧
    (VisitCXXNewExpr E mv e).diagnostics = mv.diagnostics := by
  unfold VisitCXXNewExpr
  dsimp only
  repeat' split
  all_goals exact ⟨rfl, rfl, rfl⟩

theorem VisitCXXRecordDecl_frame (mv : MainVisitor) (R : CXXRecordDecl) :
    (VisitCXXRecordDecl mv R)._fix = mv._fix ∧
    (VisitCXXRecordDecl mv R)._rewriter = mv._rewriter ∧
    (VisitCXXRecordDecl mv R).diagnostics = mv.diagnostics ∧
    (VisitCXXRecordDecl mv R)._allocationTypes = mv._allocationTypes := by
  unfold VisitCXXRecordDecl
  dsimp only
  repeat' split
  all_goals exact ⟨rfl, rfl, rfl, rfl⟩

/-- A site whose first placement argument is a static cast to an identified
type other than "Recycler" records nothing or `NonRecycler`. -/
theorem VisitCXXNewExpr_nonRecycler_site (E : AllocationTypes)
    (hNR : E.NonRecycler ≠ E.Recycler) (mv : MainVisitor) (T : QualType) (id : String)
    (rest : List Expr) (hid : id ≠ "Recycler") :
    (VisitCXXNewExpr E mv ⟨.CXXStaticCastExpr (some id) :: rest, T⟩)._allocationTypes =
        mv._allocationTypes ∨
    (VisitCXXNewExpr E mv ⟨.CXXStaticCastExpr (some id) :: rest, T⟩)._allocationTypes =
      mapModify ptrLess T.canonicalTypePtr 0 (fun k => k ||| E.NonRecycler)
        mv._allocationTypes := by
  cases rest with
  | nil =>
    left
    simp [VisitCXXNewExpr, CXXNewExpr.getNumPlacementArgs]
  | cons second more =>
    right
    simp [VisitCXXNewExpr, CXXNewExpr.getNumPlacementArgs, CXXNewExpr.getPlacementArg,
      Expr.asCXXStaticCastExpr, CheckAllocationType, hid, hNR, RecordAllocation]

theorem VisitCXXNewExprs_invariant (E : AllocationTypes) (P : MainVisitor → Prop)
    (sites : List CXXNewExpr)
    (hsite : ∀ mv e, e ∈ sites → P mv → P (VisitCXXNewExpr E mv e))
    (mv : MainVisitor) (h : P mv) : P (VisitCXXNewExprs E mv sites) := by
  induction sites generalizing mv with
  | nil => exact h
  | cons e rest ih =>
    exact ih (fun mv' e' he' => hsite mv' e' (List.mem_cons_of_mem _ he'))
      (VisitCXXNewExpr E mv e) (hsite mv e (List.mem_cons_self _ _) h)

/-- A property kept by every record visit and by the visit of every site of
the translation unit is kept by the traversal. -/
theorem TraverseDecl_invariant (E : AllocationTypes) (P : MainVisitor → Prop)
    (tu : List Decl)
    (hrec : ∀ mv R, P mv → P (VisitCXXRecordDecl mv R))
    (hsite : ∀ mv e, IsSite tu e → P mv → P (VisitCXXNewExpr E mv e))
    (mv : MainVisitor) (h : P mv) : P (TraverseDecl E mv tu) := by
  induction tu generalizing mv with
  | nil => exact h
  | cons d rest ih =>
    have hrest : ∀ mv e, IsSite rest e → P mv → P (VisitCXXNewExpr E mv e) := by
      intro mv' e ⟨f, hf, hb, he⟩
      exact hsite mv' e ⟨f, List.mem_cons_of_mem _ hf, hb, he⟩
    cases d with
    | CXXRecord R => exact ih hrest (VisitCXXRecordDecl mv R) (hrec mv R h)
    | Function f =>
      apply ih hrest (VisitFunctionDecl E mv f)
      unfold VisitFunctionDecl
      by_cases hb : f.hasBody = true
      · rw [if_pos hb]
        apply VisitCXXNewExprs_invariant E P f.newExprs _ mv h
        intro mv' e he
        exact hsite mv' e ⟨f, List.mem_cons_self _ _, hb, he⟩
      · rw [if_neg hb]
        exact h

theorem VisitCXXNewExprs_eventually (E : AllocationTypes) (Q : MainVisitor → Prop)
    (hkeep : ∀ mv e, Q mv → Q (VisitCXXNewExpr E mv e))
    (e0 : CXXNewExpr) (hestab : ∀ mv, Q (VisitCXXNewExpr E mv e0))
    (sites : List CXXNewExpr) (h0 : e0 ∈ sites) (mv : MainVisitor) :
    Q (VisitCXXNewExprs E mv sites) := by
  induction sites generalizing mv with
  | nil => exact absurd h0 (List.not_mem_nil e0)
  | cons e rest ih =>
    rcases List.mem_cons.mp h0 with h | h
    · subst h
      exact VisitCXXNewExprs_invariant E Q rest (fun mv' e' _ => hkeep mv' e')
        (VisitCXXNewExpr E mv e0) (hestab mv)
    · exact ih h (VisitCXXNewExpr E mv e)

/-- A property that one site of the translation unit establishes, and that
every visit keeps, holds after the traversal. -/
theorem TraverseDecl_eventually (E : AllocationTypes) (Q : MainVisitor → Prop)
    (hrec : ∀ mv R, Q mv → Q (VisitCXXRecordDecl mv R))
    (hkeep : ∀ mv e, Q mv → Q (VisitCXXNewExpr E mv e))
    (e0 : CXXNewExpr) (hestab : ∀ mv, Q (VisitCXXNewExpr E mv e0))
    (tu : List Decl) (h0 : IsSite tu e0) (mv : MainVisitor) :
    Q (TraverseDecl E mv tu) := by
  induction tu generalizing mv with
  | nil =>
    obtain ⟨f, hf, _⟩ := h0
    exact absurd hf (List.not_mem_nil _)
  | cons d rest ih =>
    obtain ⟨f, hf, hb, he⟩ := h0
    rcases List.mem_cons.mp hf with h | h
    · subst h
      apply TraverseDecl_invariant E Q rest hrec (fun mv' e' _ => hkeep mv' e')
        (VisitFunctionDecl E mv f)
      unfold VisitFunctionDecl
      rw [if_pos hb]
      exact VisitCXXNewExprs_eventually E Q hkeep e0 hestab f.newExprs he mv
    · exact ih ⟨f, h, hb, he⟩ _

/-- The state after the traversal of the end-to-end scenario: nothing
reported or rewritten yet, and `barrierTypes` holds the type of `A` alone. -/
theorem TraverseDecl_scenario (E : AllocationTypes) (hWB : E.WriteBarrier ≠ 0)
    (hNR : E.NonRecycler ≠ E.Recycler) (hNW : E.NonRecycler &&& E.WriteBarrier = 0)
    ( fix : Bool) (tu : List Decl) (a b : Nat) (hab : a ≠ b)
    (hsites : ∀ e, IsSite tu e → e.allocatedType.canonicalTypePtr = a ∨
      (e.allocatedType.canonicalTypePtr = b ∧
        ∃ id rest, e.placementArgs = .CXXStaticCastExpr (some id) :: rest ∧ id ≠ "Recycler"))
    (hbarrier : ∃ e, IsSite tu e ∧ e.allocatedType.canonicalTypePtr = a ∧
      ∃ f more, e.placementArgs = .CXXStaticCastExpr (some "Recycler") ::
          .UnaryOperator .UO_AddrOf (.DeclRefExpr f) :: more ∧
        "WithBarrier".data <:+: f.data) :
    (TraverseDecl E (MainVisitor.init fix) tu)._fix = fix ∧
    (TraverseDecl E (MainVisitor.init fix) tu)._rewriter = [] ∧
    (TraverseDecl E (MainVisitor.init fix) tu).diagnostics = [] ∧
    barrierTypes E (TraverseDecl E (MainVisitor.init fix) tu) = [a] := by
  have hP := TraverseDecl_invariant E
    (fun mv => mv._fix = fix ∧ mv._rewriter = [] ∧ mv.diagnostics = [] ∧
      ∀ x k, (x, k) ∈ mv._allocationTypes → x = a ∨ (x = b ∧ k &&& E.WriteBarrier = 0))
    tu
    (by
      intro mv R ⟨h1, h2, h3, h4⟩
      obtain ⟨f1, f2, f3, f4⟩ := VisitCXXRecordDecl_frame mv R
      exact ⟨f1.trans h1, f2.trans h2, f3.trans h3, by rw [f4]; exact h4⟩)
    (by
      intro mv e hs ⟨h1, h2, h3, h4⟩
      obtain ⟨f1, f2, f3⟩ := VisitCXXNewExpr_frame E mv e
      refine ⟨f1.trans h1, f2.trans h2, f3.trans h3, ?_⟩
      rcases hsites e hs with ha | ⟨hb, id, rest, hargs, hid⟩
      · rcases VisitCXXNewExpr_allocationTypes E mv e with h0 | ⟨kind, hk⟩
        · rw [h0]; exact h4
        · rw [hk]
          intro x k hx
          rcases mem_mapModify _ _ _ _ _ _ hx with h | ⟨v, _, he⟩
          · exact h4 x k h
          · left
            simp only [Prod.mk.injEq] at he
            exact he.1.trans ha
      · obtain ⟨args, T⟩ := e
        simp only at hargs hb
        subst hargs
        rcases VisitCXXNewExpr_nonRecycler_site E hNR mv T id rest hid with h0 | hk
        · rw [h0]; exact h4
        · rw [hk]
          intro x k hx
          rcases mem_mapModify _ _ _ _ _ _ hx with h | ⟨v, hv, he⟩
          · exact h4 x k h
          · right
            simp only [Prod.mk.injEq] at he
            refine ⟨he.1.trans hb, ?_⟩
            rw [he.2]
            apply or_and_eq_zero _ _ _ _ hNW
            rcases hv with hv | hv
            · rw [hv]; exact Nat.zero_and _
            · rcases h4 _ _ hv with h | ⟨_, h⟩
              · exact absurd (hb.symm.trans h).symm hab
              · exact h)
    (MainVisitor.init fix)
    ⟨rfl, rfl, rfl, by intro x k hx; exact absurd hx (List.not_mem_nil _)⟩
  obtain ⟨e0, hs0, ha0, f, more, hargs0, hf0⟩ := hbarrier
  have hQ := TraverseDecl_eventually E
    (fun mv => ∃ k, mapFind a mv._allocationTypes = some k ∧
      k &&& E.WriteBarrier = E.WriteBarrier)
    (by
      intro mv R h
      rw [(VisitCXXRecordDecl_frame mv R).2.2.2]
      exact h)
    (fun mv e h => VisitCXXNewExpr_keeps_flag E mv e a h)
    e0
    (by
      intro mv
      obtain ⟨args, T⟩ := e0
      simp only at hargs0 ha0
      subst hargs0
      rw [VisitCXXNewExpr_barrier_site E mv T f more hf0, mapFind_mapModify, ha0]
      exact ⟨(mapFind a mv._allocationTypes).getD 0 ||| E.WriteBarrier, by simp,
        or_self_and _ _⟩)
    tu hs0 (MainVisitor.init fix)
  obtain ⟨h1, h2, h3, h4⟩ := hP
  refine ⟨h1, h2, h3, ?_⟩
  apply eq_singleton_of_nodup
  · exact nodup_foldl_barrierTypes E _ [] List.nodup_nil
  · intro x
    rw [mem_barrierTypes]
    constructor
    · rintro ⟨k, hk, hne⟩
      rcases h4 x k hk with h | ⟨_, h⟩
      · exact h
      · exact absurd h hne
    · rintro rfl
      obtain ⟨k, hk, hw⟩ := hQ
      exact ⟨k, mapFind_mem _ _ _ hk, by rw [hw]; exact hWB⟩

/-! ## Violation reporter: the field loop -/

theorem processField_report (E : AllocationTypes) (fuel : Nat) (mv : MainVisitor)
    (fld : FieldDecl) (hraw : isBarrierSpelled fld.type.asString = false)
    (hnamed : fld.nameAsString.length > 0) (hfix : mv._fix = false) :
    processField E fuel mv fld =
      some { mv with diagnostics := mv.diagnostics ++ [fld.locStart] } := by
  unfold isBarrierSpelled at hraw
  obtain ⟨h1, h2⟩ := Bool.or_eq_false_iff.mp hraw
  unfold processField
  simp [h1, h2, hnamed, hfix]

theorem processField_fix_match (E : AllocationTypes) (fuel : Nat) (mv : MainVisitor)
    (fld : FieldDecl) (hraw : isBarrierSpelled fld.type.asString = false)
    (hnamed : fld.nameAsString.length > 0) (hfix : mv._fix = true) (endPtr : List Char)
    (hm : MatchType fuel fld.type.asString.data fld.characterData = some (some endPtr)) :
    processField E fuel mv fld =
      some { mv with
        _rewriter := mv._rewriter ++
          [⟨fld.locStart, fld.characterData.length - endPtr.length,
            ( GetFieldTypeAnnotation E mv fld.type).data
              ++ fld.characterData.take (fld.characterData.length - endPtr.length)
              ++ (if endPtr.head? = some ' ' then ")".data else ") ".data)⟩],
        _fixed := true } := by
  unfold isBarrierSpelled at hraw
  obtain ⟨h1, h2⟩ := Bool.or_eq_false_iff.mp hraw
  unfold processField
  simp [h1, h2, hnamed, hfix, hm]

theorem processField_fix_nomatch (E : AllocationTypes) (fuel : Nat) (mv : MainVisitor)
    (fld : FieldDecl) (hraw : isBarrierSpelled fld.type.asString = false)
    (hnamed : fld.nameAsString.length > 0) (hfix : mv._fix = true)
    (hm : MatchType fuel fld.type.asString.data fld.characterData = some none) :
    processField E fuel mv fld =
      some { mv with
        errs := mv.errs ++
          ["Fail to fix: " ++ fld.type.asString ++ " " ++ fld.nameAsString ++ "\n"],
        diagnostics := mv.diagnostics ++ [fld.locStart] } := by
  unfold isBarrierSpelled at hraw
  obtain ⟨h1, h2⟩ := Bool.or_eq_false_iff.mp hraw
  unfold processField
  simp [h1, h2, hnamed, hfix, hm]

/-- In the end-to-end scenario `Inspect` comes down to the field loop on the
one field of `A`. -/
theorem HandleTranslationUnit_scenario (E : AllocationTypes) (hWB : E.WriteBarrier ≠ 0)
    (hNR : E.NonRecycler ≠ E.Recycler) (hNW : E.NonRecycler &&& E.WriteBarrier = 0)
    (ctx : Nat → Option CXXRecordDecl) (fuel : Nat) ( fix : Bool) (tu : List Decl)
    (a b : Nat) (A : CXXRecordDecl) (fldA : FieldDecl) (hab : a ≠ b)
    (hctxA : ctx a = some A) (hAfields : A.fields = [fldA])
    (hsites : ∀ e, IsSite tu e → e.allocatedType.canonicalTypePtr = a ∨
      (e.allocatedType.canonicalTypePtr = b ∧
        ∃ id rest, e.placementArgs = .CXXStaticCastExpr (some id) :: rest ∧ id ≠ "Recycler"))
    (hbarrier : ∃ e, IsSite tu e ∧ e.allocatedType.canonicalTypePtr = a ∧
      ∃ f more, e.placementArgs = .CXXStaticCastExpr (some "Recycler") ::
          .UnaryOperator .UO_AddrOf (.DeclRefExpr f) :: more ∧
        "WithBarrier".data <:+: f.data) :
    HandleTranslationUnit E ctx fuel fix tu =
      processField E fuel (TraverseDecl E (MainVisitor.init fix) tu) fldA := by
  obtain ⟨_, _, _, hbt⟩ :=
    TraverseDecl_scenario E hWB hNR hNW fix tu a b hab hsites hbarrier
  unfold HandleTranslationUnit Inspect
  rw [hbt]
  simp only [List.foldlM_cons, List.foldlM_nil, hctxA, ProcessUnbarriedFields, hAfields]
  cases processField E fuel (TraverseDecl E (MainVisitor.init fix) tu) fldA <;> rfl

/-- Counterexample to C3 as stated: the scenario in fix mode, the field of
`A` declared `int const* m_p;`, which the type system spells `const int *`.
The matcher reports no match, so the run makes no text replacement at all and
reports one diagnostic for the field of `A` instead. -/
theorem fix_mode_without_replacement :
    (HandleTranslationUnit ⟨0, 1, 2, 4⟩
      (fun t =>
        if t = 1 then
          some ⟨"A", true,
            [⟨⟨"const int *", 21, true, true, 22⟩, "m_p", 100, "int const* m_p;".data⟩]⟩
        else if t = 2 then
          some ⟨"B", true,
            [⟨⟨"const int *", 21, true, true, 22⟩, "m_p", 200, "int const* m_p;".data⟩]⟩
        else none)
      100 true
      [.CXXRecord ⟨"Memory::NoWriteBarrierField", true, []⟩,
       .CXXRecord ⟨"A", true,
          [⟨⟨"const int *", 21, true, true, 22⟩, "m_p", 100, "int const* m_p;".data⟩]⟩,
       .CXXRecord ⟨"B", true,
          [⟨⟨"const int *", 21, true, true, 22⟩, "m_p", 200, "int const* m_p;".data⟩]⟩,
       .Function ⟨true,
          [⟨[.CXXStaticCastExpr (some "Recycler"),
              .UnaryOperator .UO_AddrOf (.DeclRefExpr "AllocWithBarrier")],
              ⟨"A", 1, false, true, 0⟩⟩,
           ⟨[.CXXStaticCastExpr (some "ArenaAllocator"),
              .UnaryOperator .UO_AddrOf (.DeclRefExpr "Alloc")],
              ⟨"B", 2, false, true, 0⟩⟩]⟩]).map
        (fun mv => (mv._rewriter, mv.diagnostics)) = some ([], [100]) := by
  decide

/-- C3, amended: end to end, from the empty state. Record `A` (the type at
address `a`) has exactly one field, which is named and not barrier-spelled (a
raw pointer with no barrier wrapper in particular), and some site constructs
`A` with at least two placement arguments, a static cast to "Recycler" and
the address of a function whose name contains "WithBarrier"; every site that
constructs the sibling record `B` (the type at address `b`, whatever its
fields) has a static cast to an identified type other than "Recycler" as
first placement argument; no other type is constructed. Then the run yields
exactly one output, the one for the field of `A`, hence none for `B`: in
report mode one diagnostic at the field; in fix mode, when `MatchType`
succeeds, one text replacement at the field, which wraps the matched span in
the annotation, and no diagnostic; and in fix mode, when `MatchType` reports
no match, one diagnostic at the field and no replacement. -/
theorem end_to_end_scenario (E : AllocationTypes) (hWB : E.WriteBarrier ≠ 0)
    (hNR : E.NonRecycler ≠ E.Recycler) (hNW : E.NonRecycler &&& E.WriteBarrier = 0)
    (ctx : Nat → Option CXXRecordDecl) (fuel : Nat) ( fix : Bool) (tu : List Decl)
    (a b : Nat) (A : CXXRecordDecl) (fldA : FieldDecl) (hab : a ≠ b)
    (hctxA : ctx a = some A) (hAfields : A.fields = [fldA])
    (hnamed : fldA.nameAsString.length > 0)
    (hraw : isBarrierSpelled fldA.type.asString = false)
    (hsites : ∀ e, IsSite tu e → e.allocatedType.canonicalTypePtr = a ∨
      (e.allocatedType.canonicalTypePtr = b ∧
        ∃ id rest, e.placementArgs = .CXXStaticCastExpr (some id) :: rest ∧ id ≠ "Recycler"))
    (hbarrier : ∃ e, IsSite tu e ∧ e.allocatedType.canonicalTypePtr = a ∧
      ∃ f more, e.placementArgs = .CXXStaticCastExpr (some "Recycler") ::
          .UnaryOperator .UO_AddrOf (.DeclRefExpr f) :: more ∧
        "WithBarrier".data <:+: f.data) :
    (fix = false → ∃ mv, HandleTranslationUnit E ctx fuel fix tu = some mv ∧
      mv.diagnostics = [fldA.locStart] ∧ mv._rewriter = []) ∧
    (fix = true → ∀ endPtr,
      MatchType fuel fldA.type.asString.data fldA.characterData = some (some endPtr) →
      ∃ mv, HandleTranslationUnit E ctx fuel fix tu = some mv ∧
        mv.diagnostics = [] ∧
        mv._rewriter = [⟨fldA.locStart, fldA.characterData.length - endPtr.length,
          ( GetFieldTypeAnnotation E (TraverseDecl E (MainVisitor.init fix) tu) fldA.type).data
            ++ fldA.characterData.take (fldA.characterData.length - endPtr.length)
            ++ (if endPtr.head? = some ' ' then ")".data else ") ".data)⟩]) ∧
    (fix = true →
      MatchType fuel fldA.type.asString.data fldA.characterData = some none →
      ∃ mv, HandleTranslationUnit E ctx fuel fix tu = some mv ∧
        mv.diagnostics = [fldA.locStart] ∧ mv._rewriter = []) := by
  have hrun := HandleTranslationUnit_scenario E hWB hNR hNW ctx fuel fix tu a b A fldA hab
    hctxA hAfields hsites hbarrier
  obtain ⟨hfix, hrw, hdiag, _⟩ :=
    TraverseDecl_scenario E hWB hNR hNW fix tu a b hab hsites hbarrier
  refine ⟨?_, ?_, ?_⟩
  · intro hf
    rw [hrun, processField_report E fuel _ fldA hraw hnamed (hfix.trans hf)]
    exact ⟨_, rfl, by simp [hdiag], hrw⟩
  · intro hf endPtr hm
    rw [hrun, processField_fix_match E fuel _ fldA hraw hnamed (hfix.trans hf) endPtr hm]
    exact ⟨_, rfl, hdiag, by simp [hrw]⟩
  · intro hf hm
    rw [hrun, processField_fix_nomatch E fuel _ fldA hraw hnamed (hfix.trans hf) hm]
    exact ⟨_, rfl, by simp [hdiag], hrw⟩

/-- Witness of amended C3: fix mode, the field of `A` declared `int* m_p;`
and spelled `int *` by the type system. The one output is the replacement of
the four characters `int*` by `Field(int*)`. -/
theorem end_to_end_scenario_witness :
    ∃ mv, HandleTranslationUnit ⟨0, 1, 2, 4⟩
      (fun t =>
        if t = 1 then
          some ⟨"A", true, [⟨⟨"int *", 21, true, true, 22⟩, "m_p", 100, "int* m_p;".data⟩]⟩
        else if t = 2 then
          some ⟨"B", true, [⟨⟨"int *", 21, true, true, 22⟩, "m_p", 200, "int* m_p;".data⟩]⟩
        else none)
      100 true
      [.CXXRecord ⟨"A", true,
          [⟨⟨"int *", 21, true, true, 22⟩, "m_p", 100, "int* m_p;".data⟩]⟩,
       .Function ⟨true,
          [⟨[.CXXStaticCastExpr (some "Recycler"),
              .UnaryOperator .UO_AddrOf (.DeclRefExpr "AllocWithBarrier")],
              ⟨"A", 1, false, true, 0⟩⟩,
           ⟨[.CXXStaticCastExpr (some "ArenaAllocator"),
              .UnaryOperator .UO_AddrOf (.DeclRefExpr "Alloc")],
              ⟨"B", 2, false, true, 0⟩⟩]⟩] = some mv ∧
      mv.diagnostics = [] ∧ mv._rewriter = [⟨100, 4, "Field(int*)".data⟩] := by
  obtain ⟨mv, h1, h2, h3⟩ :=
    (end_to_end_scenario ⟨0, 1, 2, 4⟩ (by decide) (by decide) (by decide)
      (fun t =>
        if t = 1 then
          some ⟨"A", true, [⟨⟨"int *", 21, true, true, 22⟩, "m_p", 100, "int* m_p;".data⟩]⟩
        else if t = 2 then
          some ⟨"B", true, [⟨⟨"int *", 21, true, true, 22⟩, "m_p", 200, "int* m_p;".data⟩]⟩
        else none)
      100 true
      [.CXXRecord ⟨"A", true,
          [⟨⟨"int *", 21, true, true, 22⟩, "m_p", 100, "int* m_p;".data⟩]⟩,
       .Function ⟨true,
          [⟨[.CXXStaticCastExpr (some "Recycler"),
              .UnaryOperator .UO_AddrOf (.DeclRefExpr "AllocWithBarrier")],
              ⟨"A", 1, false, true, 0⟩⟩,
           ⟨[.CXXStaticCastExpr (some "ArenaAllocator"),
              .UnaryOperator .UO_AddrOf (.DeclRefExpr "Alloc")],
              ⟨"B", 2, false, true, 0⟩⟩]⟩]
      1 2
      ⟨"A", true, [⟨⟨"int *", 21, true, true, 22⟩, "m_p", 100, "int* m_p;".data⟩]⟩
      ⟨⟨"int *", 21, true, true, 22⟩, "m_p", 100, "int* m_p;".data⟩
      (by decide) rfl rfl (by decide) (by decide)
      (by
        rintro e ⟨f, hf, _, he⟩
        simp only [List.mem_cons, List.mem_singleton, List.not_mem_nil, or_false,
          Decl.Function.injEq] at hf
        rcases hf with hf | hf
        · exact absurd hf (by simp)
        subst hf
        simp only [List.mem_cons, List.mem_singleton, List.not_mem_nil, or_false] at he
        rcases he with rfl | rfl
        · exact Or.inl rfl
        · exact Or.inr ⟨rfl, "ArenaAllocator", _, rfl, by decide⟩)
      ⟨⟨[.CXXStaticCastExpr (some "Recycler"),
          .UnaryOperator .UO_AddrOf (.DeclRefExpr "AllocWithBarrier")],
          ⟨"A", 1, false, true, 0⟩⟩,
        ⟨_, List.mem_cons_of_mem _ (List.mem_cons_self _ _), rfl, List.mem_cons_self _ _⟩,
        rfl, "AllocWithBarrier", [], rfl, ⟨"Alloc".data, [], by decide⟩⟩).2.1
      rfl " m_p;".data (by decide)
  exact ⟨mv, h1, h2, h3.trans (by decide)⟩

/-! ## Plugin arguments: properties -/

theorem ParseArgs_accepts (args : List String) (action : RecyclerCheckerAction) :
    (ParseArgs action args).1 = true ↔ ∀ x ∈ args, x = "-fix" ∨ x = "-verbose" := by
  induction args generalizing action with
  | nil => simp [ParseArgs]
  | cons i rest ih =>
    unfold ParseArgs
    by_cases hv : i = "-verbose"
    · rw [if_pos hv, ih]
      simp [hv]
    · rw [if_neg hv]
      by_cases hf : i = "-fix"
      · rw [if_pos hf, ih]
        simp [hf]
      · rw [if_neg hf]
        simp [hv, hf]

theorem ParseArgs_fix (args : List String) (action : RecyclerCheckerAction)
    (h : (ParseArgs action args).1 = true) :
    (ParseArgs action args).2._fix = (action._fix || decide ("-fix" ∈ args)) := by
  induction args generalizing action with
  | nil => simp [ParseArgs]
  | cons i rest ih =>
    unfold ParseArgs at h ⊢
    by_cases hv : i = "-verbose"
    · rw [if_pos hv] at h ⊢
      rw [ih _ h]
      simp [hv]
    · rw [if_neg hv] at h ⊢
      by_cases hf : i = "-fix"
      · rw [if_pos hf] at h ⊢
        rw [ih _ h]
        simp [hf]
      · rw [if_neg hf] at h
        simp at h

theorem ParseArgs_stops (pre : List String) (bad : String) (post : List String)
    (action : RecyclerCheckerAction)
    (hpre : ∀ x ∈ pre, x = "-fix" ∨ x = "-verbose")
    (hbad : bad ≠ "-fix" ∧ bad ≠ "-verbose") :
    ParseArgs action (pre ++ bad :: post) =
      (false, { (ParseArgs action pre).2 with
        errs := (ParseArgs action pre).2.errs ++ [unrecognizedOption bad] }) := by
  induction pre generalizing action with
  | nil => simp [ParseArgs, hbad.1, hbad.2]
  | cons i rest ih =>
    have hrest : ∀ x ∈ rest, x = "-fix" ∨ x = "-verbose" :=
      fun x hx => hpre x (List.mem_cons_of_mem _ hx)
    rw [List.cons_append]
    unfold ParseArgs
    by_cases hv : i = "-verbose"
    · rw [if_pos hv, if_pos hv]
      exact ih _ hrest
    · rw [if_neg hv, if_neg hv]
      rcases hpre i (List.mem_cons_self _ _) with hf | hf
      · rw [if_pos hf, if_pos hf]
        exact ih _ hrest
      · exact absurd hf hv

/-- C13: `ParseArgs` accepts exactly the two flags. It returns true iff every
argument is `-fix` or `-verbose`; at the first other token it returns false at
once, with the usage error logged and the arguments after that token not
looked at; and when it returns true from a state with fix mode disabled, fix
mode is enabled afterwards iff `-fix` occurs among the arguments. -/
theorem ParseArgs_two_flags (action : RecyclerCheckerAction) (args : List String) :
    ((ParseArgs action args).1 = true ↔ ∀ x ∈ args, x = "-fix" ∨ x = "-verbose") ∧
    (∀ pre bad post, args = pre ++ bad :: post →
      (∀ x ∈ pre, x = "-fix" ∨ x = "-verbose") → bad ≠ "-fix" ∧ bad ≠ "-verbose" →
      ParseArgs action args =
        (false, { (ParseArgs action pre).2 with
          errs := (ParseArgs action pre).2.errs ++ [unrecognizedOption bad] })) ∧
    ((ParseArgs action args).1 = true → action._fix = false →
      ((ParseArgs action args).2._fix = true ↔ "-fix" ∈ args)) := by
  refine ⟨ParseArgs_accepts args action, ?_, ?_⟩
  · intro pre bad post hargs hpre hbad
    rw [hargs]
    exact ParseArgs_stops pre bad post action hpre hbad
  · intro h hfix
    rw [ParseArgs_fix args action h, hfix]
    simp

/-- Witness of C13: `-verbose -fix` is accepted and enables fix mode. -/
theorem ParseArgs_two_flags_witness :
    (ParseArgs ⟨false, false, []⟩ ["-verbose", "-fix"]).1 = true ∧
    (ParseArgs ⟨false, false, []⟩ ["-verbose", "-fix"]).2._fix = true :=
  ⟨by decide,
   ((ParseArgs_two_flags ⟨false, false, []⟩ ["-verbose", "-fix"]).2.2
      (by decide) rfl).mpr (by decide)⟩

/-! ## Field classifier: marker gating and the single forward pass -/

theorem VisitCXXRecordDecl_before_marker (mv : MainVisitor) (R : CXXRecordDecl)
    (hflag : mv._barrierTypeDefined = false)
    (hname : R.qualifiedNameAsString ≠ "Memory::NoWriteBarrierField") :
    VisitCXXRecordDecl mv R = mv := by
  simp [VisitCXXRecordDecl, hflag, hname]

theorem VisitCXXRecordDecls_before_marker (decls : List CXXRecordDecl) (mv : MainVisitor)
    (hflag : mv._barrierTypeDefined = false)
    (hnames : ∀ R ∈ decls, R.qualifiedNameAsString ≠ "Memory::NoWriteBarrierField") :
    VisitCXXRecordDecls mv decls = mv := by
  induction decls with
  | nil => rfl
  | cons R rest ih =>
    show VisitCXXRecordDecls (VisitCXXRecordDecl mv R) rest = mv
    rw [VisitCXXRecordDecl_before_marker mv R hflag (hnames R (List.mem_cons_self _ _))]
    exact ih (fun S hS => hnames S (List.mem_cons_of_mem _ hS))

/-- C17: marker gating. From the empty state, a pass over record declarations
none of which is named `Memory::NoWriteBarrierField` changes nothing, whatever
the fields of the records are: the visit of each of them leaves
PointerClassSet and BarrieredClassSet as they were, and both sets are empty at
the end. The records before the first marker of a longer pass are such a
pass, so the state in which the marker is visited is still the empty one. -/
theorem records_before_marker_skipped ( fix : Bool) (pre : List CXXRecordDecl)
    (hnames : ∀ R ∈ pre, R.qualifiedNameAsString ≠ "Memory::NoWriteBarrierField") :
    (∀ before R after, pre = before ++ R :: after →
      (VisitCXXRecordDecl (VisitCXXRecordDecls (MainVisitor.init fix) before) R)._pointerClasses
          = (VisitCXXRecordDecls (MainVisitor.init fix) before)._pointerClasses ∧
      (VisitCXXRecordDecl (VisitCXXRecordDecls (MainVisitor.init fix) before)
          R)._barrieredClasses
          = (VisitCXXRecordDecls (MainVisitor.init fix) before)._barrieredClasses) ∧
    (VisitCXXRecordDecls (MainVisitor.init fix) pre)._pointerClasses = [] ∧
    (VisitCXXRecordDecls (MainVisitor.init fix) pre)._barrieredClasses = [] ∧
    (∀ rest, VisitCXXRecordDecls (MainVisitor.init fix) (pre ++ rest) =
      VisitCXXRecordDecls (MainVisitor.init fix) rest) := by
  have hall := VisitCXXRecordDecls_before_marker pre (MainVisitor.init fix) rfl hnames
  refine ⟨?_, ?_, ?_, ?_⟩
  · intro before R after hpre
    have hb : VisitCXXRecordDecls (MainVisitor.init fix) before = MainVisitor.init fix := by
      apply VisitCXXRecordDecls_before_marker before (MainVisitor.init fix) rfl
      intro S hS
      exact hnames S (by rw [hpre]; exact List.mem_append_left _ hS)
    have hR : R.qualifiedNameAsString ≠ "Memory::NoWriteBarrierField" :=
      hnames R (by rw [hpre]; exact List.mem_append_right _ (List.mem_cons_self _ _))
    rw [hb, VisitCXXRecordDecl_before_marker (MainVisitor.init fix) R rfl hR]
    exact ⟨rfl, rfl⟩
  · rw [hall]; rfl
  · rw [hall]; rfl
  · intro rest
    unfold VisitCXXRecordDecls at hall ⊢
    rw [List.foldl_append, hall]

/-- Witness of C17: two records with pointer fields and no marker. -/
theorem records_before_marker_skipped_witness :
    (VisitCXXRecordDecls (MainVisitor.init false)
      [⟨"Foo", true, [⟨⟨"int *", 21, true, true, 22⟩, "m_p", 100, "int* m_p;".data⟩]⟩,
       ⟨"Bar", true, [⟨⟨"typename WriteBarrierFieldTypeTraits<char *>::Type", 23, false, true,
          0⟩, "m_q", 200, "Field(char*) m_q;".data⟩]⟩])._pointerClasses = [] ∧
    (VisitCXXRecordDecls (MainVisitor.init false)
      [⟨"Foo", true, [⟨⟨"int *", 21, true, true, 22⟩, "m_p", 100, "int* m_p;".data⟩]⟩,
       ⟨"Bar", true, [⟨⟨"typename WriteBarrierFieldTypeTraits<char *>::Type", 23, false, true,
          0⟩, "m_q", 200, "Field(char*) m_q;".data⟩]⟩])._barrieredClasses = [] :=
  ⟨(records_before_marker_skipped false _ (by decide)).2.1,
   (records_before_marker_skipped false _ (by decide)).2.2.1⟩

theorem VisitCXXRecordDecl_mono (mv : MainVisitor) (S : CXXRecordDecl) (n : String) :
    (n ∈ mv._pointerClasses → n ∈ (VisitCXXRecordDecl mv S)._pointerClasses) ∧
    (n ∈ mv._barrieredClasses → n ∈ (VisitCXXRecordDecl mv S)._barrieredClasses) := by
  rcases VisitCXXRecordDecl_sets mv S with ⟨hp, hb⟩ | ⟨hp, hb⟩ | ⟨hp, hb⟩
  · rw [hp, hb]; exact ⟨id, id⟩
  · rw [hp, hb, mem_setInsert]; exact ⟨Or.inr, id⟩
  · rw [hp, hb, mem_setInsert]; exact ⟨id, Or.inr⟩

theorem VisitCXXRecordDecl_other_name (mv : MainVisitor) (S : CXXRecordDecl) (n : String)
    (hn : n ≠ S.qualifiedNameAsString) :
    (n ∈ (VisitCXXRecordDecl mv S)._pointerClasses ↔ n ∈ mv._pointerClasses) ∧
    (n ∈ (VisitCXXRecordDecl mv S)._barrieredClasses ↔ n ∈ mv._barrieredClasses) := by
  rcases VisitCXXRecordDecl_sets mv S with ⟨hp, hb⟩ | ⟨hp, hb⟩ | ⟨hp, hb⟩
  · rw [hp, hb]; exact ⟨Iff.rfl, Iff.rfl⟩
  · rw [hp, hb, mem_setInsert]
    exact ⟨⟨fun h => h.elim (fun e => absurd e hn) id, Or.inr⟩, Iff.rfl⟩
  · rw [hp, hb, mem_setInsert]
    exact ⟨Iff.rfl, ⟨fun h => h.elim (fun e => absurd e hn) id, Or.inr⟩⟩

theorem VisitCXXRecordDecls_mono (later : List CXXRecordDecl) (mv : MainVisitor) (n : String) :
    (n ∈ mv._pointerClasses → n ∈ (VisitCXXRecordDecls mv later)._pointerClasses) ∧
    (n ∈ mv._barrieredClasses → n ∈ (VisitCXXRecordDecls mv later)._barrieredClasses) := by
  induction later generalizing mv with
  | nil => exact ⟨id, id⟩
  | cons S rest ih =>
    have h1 := VisitCXXRecordDecl_mono mv S n
    have h2 := ih (VisitCXXRecordDecl mv S)
    exact ⟨fun h => h2.1 (h1.1 h), fun h => h2.2 (h1.2 h)⟩

theorem VisitCXXRecordDecls_other_names (later : List CXXRecordDecl) (mv : MainVisitor)
    (n : String) (hn : ∀ S ∈ later, n ≠ S.qualifiedNameAsString) :
    (n ∈ (VisitCXXRecordDecls mv later)._pointerClasses ↔ n ∈ mv._pointerClasses) ∧
    (n ∈ (VisitCXXRecordDecls mv later)._barrieredClasses ↔ n ∈ mv._barrieredClasses) := by
  induction later generalizing mv with
  | nil => exact ⟨Iff.rfl, Iff.rfl⟩
  | cons S rest ih =>
    have h1 := VisitCXXRecordDecl_other_name mv S n (hn S (List.mem_cons_self _ _))
    have h2 := ih (VisitCXXRecordDecl mv S) (fun T hT => hn T (List.mem_cons_of_mem _ hT))
    exact ⟨h2.1.trans h1.1, h2.2.trans h1.2⟩

/-- C18: single forward pass, no re-classification. In the field loop, a field
of compound type (not a pointer, not barrier-spelled) whose type name is in
neither PointerClassSet nor BarrieredClassSet at that moment leaves both flags
as they are. And the visits of later records never remove a name from the set
it is in, and leave the membership of a name in both sets exactly as it was
when none of the later records has that qualified name: classifying the type
of a field of `R` after `R` does not change the classification of `R`. -/
theorem single_forward_pass (mv : MainVisitor) :
    (∀ flags fld, isBarrierSpelled fld.type.asString = false →
      fld.type.isPointerType = false → fld.type.isCompoundType = true →
      fld.type.asString ∉ mv._pointerClasses → fld.type.asString ∉ mv._barrieredClasses →
      classifyField mv flags fld = flags) ∧
    (∀ later n,
      (n ∈ mv._pointerClasses → n ∈ (VisitCXXRecordDecls mv later)._pointerClasses) ∧
      (n ∈ mv._barrieredClasses → n ∈ (VisitCXXRecordDecls mv later)._barrieredClasses)) ∧
    (∀ later n, (∀ S ∈ later, n ≠ S.qualifiedNameAsString) →
      (n ∈ (VisitCXXRecordDecls mv later)._pointerClasses ↔ n ∈ mv._pointerClasses) ∧
      (n ∈ (VisitCXXRecordDecls mv later)._barrieredClasses ↔ n ∈ mv._barrieredClasses)) := by
  refine ⟨?_, fun later n => VisitCXXRecordDecls_mono later mv n,
    fun later n hn => VisitCXXRecordDecls_other_names later mv n hn⟩
  intro flags fld hraw hptr hcomp hpc hbc
  unfold isBarrierSpelled at hraw
  obtain ⟨h1, h2⟩ := Bool.or_eq_false_iff.mp hraw
  simp [classifyField, h1, h2, hptr, hcomp, Contains, hpc, hbc]

/-- Witness of C18: `R` holds a member of type `S` before `S` is classified;
`R` stays out of both sets although `S` then goes into PointerClassSet. -/
theorem single_forward_pass_witness :
    classifyField
        { MainVisitor.init false with _barrierTypeDefined := true, _pointerClasses := ["P"] }
        (false, false) ⟨⟨"S", 31, false, true, 0⟩, "m_s", 300, "S m_s;".data⟩ = (false, false) ∧
    (VisitCXXRecordDecls
        { MainVisitor.init false with _barrierTypeDefined := true, _pointerClasses := ["P"] }
        [⟨"S", true,
          [⟨⟨"int *", 21, true, true, 22⟩, "m_p", 100, "int* m_p;".data⟩]⟩])._pointerClasses
      = ["P", "S"] ∧
    ("R" ∈ (VisitCXXRecordDecls
        { MainVisitor.init false with _barrierTypeDefined := true, _pointerClasses := ["P"] }
        [⟨"S", true,
          [⟨⟨"int *", 21, true, true, 22⟩, "m_p", 100, "int* m_p;".data⟩]⟩])._pointerClasses
      ↔ "R" ∈ ["P"]) :=
  ⟨(single_forward_pass
      { MainVisitor.init false with _barrierTypeDefined := true, _pointerClasses := ["P"] }).1
      (false, false) ⟨⟨"S", 31, false, true, 0⟩, "m_s", 300, "S m_s;".data⟩
      (by decide) rfl rfl (by decide) (by decide),
   by decide,
   ((single_forward_pass
      { MainVisitor.init false with _barrierTypeDefined := true, _pointerClasses := ["P"] }).2.2
      [⟨"S", true, [⟨⟨"int *", 21, true, true, 22⟩, "m_p", 100, "int* m_p;".data⟩]⟩] "R"
      (by decide)).1⟩

/-! ## Type-name matcher: the cursors stay inside their strings -/

theorem skipAngles_suffix (p : List Char) (left : Nat) : skipAngles p left <:+ p := by
  induction p generalizing left with
  | nil => simp [skipAngles]
  | cons c cs ih =>
    cases left with
    | zero => simp [skipAngles]
    | succ n =>
      unfold skipAngles
      simp only
      split
      · exact (ih (n + 2)).trans (List.suffix_cons c cs)
      · split
        · exact (ih n).trans (List.suffix_cons c cs)
        · exact (ih (n + 1)).trans (List.suffix_cons c cs)

theorem skipArray_suffix (p : List Char) : skipArray p <:+ p := by
  induction p with
  | nil => simp [skipArray]
  | cons c cs ih =>
    unfold skipArray
    split
    · exact ih.trans (List.suffix_cons c cs)
    · exact List.suffix_cons c cs

theorem matchChars_suffix (p source : List Char) :
    (matchChars p source).1 <:+ p ∧ (matchChars p source).2 <:+ source := by
  induction p generalizing source with
  | nil => simp [matchChars]
  | cons c cs ih =>
    cases source with
    | nil => simp [matchChars]
    | cons d ds =>
      unfold matchChars
      split
      · exact ⟨(ih ds).1.trans (List.suffix_cons c cs), (ih ds).2.trans (List.suffix_cons d ds)⟩
      · exact ⟨List.suffix_refl _, List.suffix_refl _⟩

theorem SkipSpace_eq_some (p p' : List Char) (h : SkipSpace p = some p') : p = ' ' :: p' := by
  unfold SkipSpace at h
  split at h
  · simp only [Option.some.injEq] at h
    rw [h]
  · simp at h

theorem SkipTemplateParameters_suffix (p p' : List Char)
    (h : SkipTemplateParameters p = some p') : p' <:+ p := by
  unfold SkipTemplateParameters at h
  split at h
  · rename_i rest
    simp only [Option.some.injEq] at h
    rw [← h]
    exact (skipAngles_suffix rest 1).trans (List.suffix_cons _ _)
  · simp at h

theorem skipEitherPrefix_suffix (pre p source p' source' : List Char)
    (h : skipEitherPrefix pre p source = some (p', source')) :
    p' <:+ p ∧ source' <:+ source := by
  unfold skipEitherPrefix at h
  split at h
  · rename_i q hq
    simp only [Option.some.injEq, Prod.mk.injEq] at h
    rw [← h.1, ← h.2]
    exact ⟨⟨pre, (SkipPrefix_eq_some p pre q hq).symm⟩, List.suffix_refl _⟩
  · split at h
    · rename_i q hq
      simp only [Option.some.injEq, Prod.mk.injEq] at h
      rw [← h.1, ← h.2]
      exact ⟨List.suffix_refl _, ⟨pre, (SkipPrefix_eq_some source pre q hq).symm⟩⟩
    · simp at h

/-- The position found by `stringFind` leaves room for the needle. -/
theorem stringFind_bound (needle s : List Char) (i : Nat)
    (h : stringFind needle s = some i) : i + needle.length ≤ s.length := by
  induction s generalizing i with
  | nil =>
    unfold stringFind at h
    split at h
    · rename_i hn
      simp only [Option.some.injEq] at h
      subst h
      simp [hn]
    · simp at h
  | cons c cs ih =>
    unfold stringFind at h
    split at h
    · rename_i hp
      simp only [Option.some.injEq] at h
      subst h
      simpa using (List.isPrefixOf_iff_prefix.mp hp).length_le
    · cases hr : stringFind needle cs with
      | none => simp [hr] at h
      | some j =>
        simp only [hr, Option.map_some', Option.some.injEq] at h
        subst h
        have := ih j hr
        simp only [List.length_cons]
        omega

theorem orElse_eq_some {α : Type} (x : Option α) (f : Unit → Option α) (v : α)
    (h : x.orElse f = some v) : x = some v ∨ f () = some v := by
  cases x with
  | none => exact Or.inr (by simpa [Option.orElse] using h)
  | some w => exact Or.inl (by simpa [Option.orElse] using h)

/-- Every iteration of the main loop leaves each cursor at a suffix of where
it was. -/
theorem matchBody_suffix (p source p' source' : List Char)
    (h : matchBody p source = .next p' source') : p' <:+ p ∧ source' <:+ source := by
  unfold matchBody at h
  split at h
  · rename_i q hq
    simp only [MatchStep.next.injEq] at h
    rw [← h.1, ← h.2, SkipSpace_eq_some p q hq]
    exact ⟨List.suffix_cons _ _, List.suffix_refl _⟩
  split at h
  · rename_i q hq
    simp only [MatchStep.next.injEq] at h
    rw [← h.1, ← h.2, SkipSpace_eq_some source q hq]
    exact ⟨List.suffix_refl _, List.suffix_cons _ _⟩
  split at h
  · rename_i q r hq
    simp only [MatchStep.next.injEq] at h
    rw [← h.1, ← h.2]
    rcases orElse_eq_some _ _ _ hq with h1 | hq
    · exact skipEitherPrefix_suffix _ _ _ _ _ h1
    rcases orElse_eq_some _ _ _ hq with h1 | hq
    · exact skipEitherPrefix_suffix _ _ _ _ _ h1
    rcases orElse_eq_some _ _ _ hq with h1 | hq
    · exact skipEitherPrefix_suffix _ _ _ _ _ h1
    rcases orElse_eq_some _ _ _ hq with h1 | hq
    · exact skipEitherPrefix_suffix _ _ _ _ _ h1
    · exact skipEitherPrefix_suffix _ _ _ _ _ hq
  split at h
  · simp only [MatchStep.next.injEq] at h
    rw [← h.1, ← h.2]
    exact ⟨skipArray_suffix p, List.suffix_refl _⟩
  split at h
  · rename_i q hq
    simp only [MatchStep.next.injEq] at h
    rw [← h.1, ← h.2]
    exact ⟨SkipTemplateParameters_suffix p q hq, List.suffix_refl _⟩
  split at h
  · rename_i q hq
    simp only [MatchStep.next.injEq] at h
    rw [← h.1, ← h.2]
    exact ⟨List.suffix_refl _, SkipTemplateParameters_suffix source q hq⟩
  split at h
  · split at h
    · dsimp only at h
      split at h
      · simp only [MatchStep.next.injEq] at h
        rw [← h.1, ← h.2]
        exact ⟨List.drop_suffix _ _, List.drop_suffix _ _⟩
      · simp only [MatchStep.next.injEq] at h
        rw [← h.1, ← h.2]
        exact ⟨List.drop_suffix _ _, List.suffix_refl _⟩
    · split at h
      · dsimp only at h
        simp only [MatchStep.next.injEq] at h
        rw [← h.1, ← h.2]
        exact matchChars_suffix p source
      · simp at h
  · split at h
    · dsimp only at h
      simp only [MatchStep.next.injEq] at h
      rw [← h.1, ← h.2]
      exact matchChars_suffix p source
    · simp at h

theorem matchLoop_suffix (fuel : Nat) (p source rest : List Char)
    (h : matchLoop fuel p source = some (some rest)) : rest <:+ source := by
  induction fuel generalizing p source with
  | zero =>
    rw [matchLoop_zero] at h
    by_cases hc : p ≠ [] ∧ source ≠ []
    · rw [if_pos hc] at h
      exact absurd h (by simp)
    · rw [if_neg hc] at h
      split at h
      · simp only [Option.some.injEq] at h
        rw [h]
      · exact absurd h (by simp)
  | succ n ih =>
    rw [matchLoop_succ_eq] at h
    by_cases hc : p ≠ [] ∧ source ≠ []
    · rw [if_pos hc] at h
      cases hb : matchBody p source with
      | next p' source' =>
        simp only [hb] at h
        exact (ih p' source' h).trans (matchBody_suffix p source p' source' hb).2
      | mismatch =>
        simp only [hb] at h
        exact absurd h (by simp)
    · rw [if_neg hc] at h
      split at h
      · simp only [Option.some.injEq] at h
        rw [h]
      · exact absurd h (by simp)

/-- The end position that `MatchType` reports is inside the source text. -/
theorem MatchType_suffix (fuel : Nat) (type source rest : List Char)
    (h : MatchType fuel type source = some (some rest)) : rest <:+ source := by
  unfold MatchType at h
  split at h
  · rename_i q hq
    simp only [Option.some.injEq] at h
    rw [← h]
    exact ⟨type, (SkipPrefix_eq_some source type q hq).symm⟩
  · split at h
    · rename_i q hq
      simp only [Option.some.injEq] at h
      rw [← h]
      split at hq
      · exact ⟨_, (SkipPrefix_eq_some source _ q hq).symm⟩
      · simp at hq
    · exact matchLoop_suffix fuel type source rest h

/-- The matched span: the source text is the span followed by the remainder,
and the span is what `string(begin, end)` copies. -/
theorem take_of_suffix (source rest : List Char) (h : rest <:+ source) :
    source.take (source.length - rest.length) ++ rest = source ∧
    source.length - rest.length ≤ source.length := by
  obtain ⟨span, hs⟩ := h
  subst hs
  simp

/-- C20: `MatchType` stays in bounds. Each helper moves its cursor over
characters that are there: `SkipSpace` over one blank, `SkipPrefix` over the
prefix it has found, `SkipTemplateParameters` and the array-suffix skip to a
suffix of the text, the namespace skip over `i + 2` characters that both the
declared type and (when it is advanced) the source text have; so every
iteration leaves both cursors inside their strings. And whenever `MatchType`
returns true, the end position lies inside the source text: the source is the
matched span followed by the remainder, with
`0 <= end - begin <= length(source)`. -/
theorem MatchType_stays_in_bounds (p source : List Char) :
    (∀ p', SkipSpace p = some p' → p = ' ' :: p') ∧
    (∀ pre p', SkipPrefix p pre = some p' → p = pre ++ p') ∧
    (∀ p', SkipTemplateParameters p = some p' → p' <:+ p) ∧
    skipArray p <:+ p ∧
    (∀ i, stringFind "::".data p = some i →
      i + 2 ≤ p.length ∧ ((p.take (i + 2)).isPrefixOf source = true → i + 2 ≤ source.length)) ∧
    (∀ p' source', matchBody p source = .next p' source' → p' <:+ p ∧ source' <:+ source) ∧
    (∀ fuel rest, MatchType fuel p source = some (some rest) →
      rest <:+ source ∧ source.length - rest.length ≤ source.length ∧
      source.take (source.length - rest.length) ++ rest = source) := by
  refine ⟨SkipSpace_eq_some p, fun pre p' h => SkipPrefix_eq_some p pre p' h,
    SkipTemplateParameters_suffix p, skipArray_suffix p, ?_, matchBody_suffix p source, ?_⟩
  · intro i hi
    have hb : i + 2 ≤ p.length := stringFind_bound "::".data p i hi
    refine ⟨hb, fun hpre => ?_⟩
    have hlen := (List.isPrefixOf_iff_prefix.mp hpre).length_le
    rw [List.length_take, Nat.min_eq_left hb] at hlen
    exact hlen
  · intro fuel rest h
    have hs := MatchType_suffix fuel p source rest h
    exact ⟨hs, (take_of_suffix source rest hs).2, (take_of_suffix source rest hs).1⟩

/-- Witness of C20: the declared type `const Foo::Bar*` against `Bar* m_x;`. -/
theorem MatchType_stays_in_bounds_witness :
    " m_x;".data <:+ "Bar* m_x;".data ∧
    "Bar* m_x;".data.length - " m_x;".data.length ≤ "Bar* m_x;".data.length ∧
    "Bar* m_x;".data.take ("Bar* m_x;".data.length - " m_x;".data.length) ++ " m_x;".data
      = "Bar* m_x;".data :=
  (MatchType_stays_in_bounds "const Foo::Bar*".data "Bar* m_x;".data).2.2.2.2.2.2
    3 " m_x;".data (by decide)

/-! ## Violation reporter: outputs of the field loop -/

theorem fieldReported_iff (fld : FieldDecl) :
    fieldReported fld = true ↔
      isBarrierSpelled fld.type.asString = false ∧ fld.nameAsString.length > 0 := by
  unfold fieldReported isBarrierSpelled
  cases StartsWith fld.type.asString.data "typename WriteBarrierFieldTypeTraits".data <;>
  cases StartsWith fld.type.asString.data
    "const typename WriteBarrierFieldTypeTraits".data <;>
  simp

theorem processField_unreported (E : AllocationTypes) (fuel : Nat) (mv : MainVisitor)
    (fld : FieldDecl) (h : fieldReported fld = false) : processField E fuel mv fld = some mv := by
  unfold fieldReported at h
  unfold processField
  simp only [h, Bool.false_eq_true, if_false]

theorem foldlM_unchanged {α σ : Type} (f : σ → α → Option σ) (l : List α)
    (h : ∀ s, ∀ x ∈ l, f s x = some s) (s : σ) : l.foldlM f s = some s := by
  induction l with
  | nil => rfl
  | cons x rest ih =>
    rw [List.foldlM_cons, h s x (List.mem_cons_self _ _)]
    exact ih (fun s' y hy => h s' y (List.mem_cons_of_mem _ hy))

theorem ProcessUnbarriedFields_unreported (E : AllocationTypes) (fuel : Nat)
    (mv : MainVisitor) (R : CXXRecordDecl)
    (h : ∀ fld ∈ R.fields, fieldReported fld = false) :
    ProcessUnbarriedFields E fuel mv R = some mv :=
  foldlM_unchanged (processField E fuel) R.fields
    (fun s fld hf => processField_unreported E fuel s fld (h fld hf)) mv

theorem fieldReported_of_spelled (fld : FieldDecl)
    (h : isBarrierSpelled fld.type.asString = true) : fieldReported fld = false := by
  cases hr : fieldReported fld with
  | false => rfl
  | true =>
    rw [((fieldReported_iff fld).mp hr).1] at h
    exact absurd h (by simp)

theorem VisitCXXNewExpr_fixed (E : AllocationTypes) (mv : MainVisitor) (e : CXXNewExpr) :
    (VisitCXXNewExpr E mv e)._fixed = mv._fixed := by
  unfold VisitCXXNewExpr
  dsimp only
  repeat' split
  all_goals rfl

theorem VisitCXXRecordDecl_fixed (mv : MainVisitor) (R : CXXRecordDecl) :
    (VisitCXXRecordDecl mv R)._fixed = mv._fixed := by
  unfold VisitCXXRecordDecl
  dsimp only
  repeat' split
  all_goals rfl

/-- The traversal makes no output and applies no fix. -/
theorem TraverseDecl_no_output (E : AllocationTypes) ( fix : Bool) (tu : List Decl) :
    (TraverseDecl E (MainVisitor.init fix) tu)._rewriter = [] ∧
    (TraverseDecl E (MainVisitor.init fix) tu).diagnostics = [] ∧
    (TraverseDecl E (MainVisitor.init fix) tu)._fixed = false :=
  TraverseDecl_invariant E
    (fun mv => mv._rewriter = [] ∧ mv.diagnostics = [] ∧ mv._fixed = false) tu
    (fun mv R ⟨h1, h2, h3⟩ =>
      ⟨(VisitCXXRecordDecl_frame mv R).2.1.trans h1,
       (VisitCXXRecordDecl_frame mv R).2.2.1.trans h2,
       (VisitCXXRecordDecl_fixed mv R).trans h3⟩)
    (fun mv e _ ⟨h1, h2, h3⟩ =>
      ⟨(VisitCXXNewExpr_frame E mv e).2.1.trans h1,
       (VisitCXXNewExpr_frame E mv e).2.2.trans h2,
       (VisitCXXNewExpr_fixed E mv e).trans h3⟩)
    (MainVisitor.init fix) ⟨rfl, rfl, rfl⟩

/-- C14: fix idempotence. On a record all of whose fields have a type text
that starts with the barrier-field-template spelling (with or without leading
`const`), `ProcessUnbarriedFields` returns, in either mode, with the state as
it was: no text replacement, no diagnostic, the any-fix-applied flag not set;
and `ApplyFix` on a state with the flag not set persists nothing. So a run on
source in which every record reached by `Inspect` is of that kind ends with
no edit and no diagnostic, and its `ApplyFix` persists nothing. -/
theorem fix_idempotent (E : AllocationTypes) (fuel : Nat)
    (overwriteChangedFiles : List Replacement → Bool) :
    (∀ mv R, (∀ fld ∈ R.fields, isBarrierSpelled fld.type.asString = true) →
      ProcessUnbarriedFields E fuel mv R = some mv ∧
      (mv._fixed = false → ApplyFix overwriteChangedFiles mv = (false, none))) ∧
    (∀ (ctx : Nat → Option CXXRecordDecl) ( fix : Bool) (tu : List Decl),
      (∀ t R, ctx t = some R → ∀ fld ∈ R.fields, isBarrierSpelled fld.type.asString = true) →
      ∃ mv, HandleTranslationUnit E ctx fuel fix tu = some mv ∧
        mv._rewriter = [] ∧ mv.diagnostics = [] ∧ mv._fixed = false ∧
        ApplyFix overwriteChangedFiles mv = (false, none)) := by
  constructor
  · intro mv R hR
    refine ⟨ProcessUnbarriedFields_unreported E fuel mv R
      (fun fld hf => fieldReported_of_spelled fld (hR fld hf)), ?_⟩
    intro hfixed
    simp [ApplyFix, hfixed]
  · intro ctx fix tu hctx
    obtain ⟨h1, h2, h3⟩ := TraverseDecl_no_output E fix tu
    refine ⟨TraverseDecl E (MainVisitor.init fix) tu, ?_, h1, h2, h3, by simp [ApplyFix, h3]⟩
    unfold HandleTranslationUnit Inspect
    apply foldlM_unchanged
    intro s t _
    cases hc : ctx t with
    | none => rfl
    | some R =>
      exact ProcessUnbarriedFields_unreported E fuel s R
        (fun fld hf => fieldReported_of_spelled fld (hctx t R hc fld hf))

/-- Witness of C14: a record with one annotated field, fix mode. -/
theorem fix_idempotent_witness :
    ProcessUnbarriedFields ⟨0, 1, 2, 4⟩ 0 (MainVisitor.init true)
      ⟨"Bar", true, [⟨⟨"typename WriteBarrierFieldTypeTraits<char *>::Type", 23, false, true,
          0⟩, "m_q", 200, "Field(char*) m_q;".data⟩]⟩ = some (MainVisitor.init true) ∧
    ApplyFix (fun _ => true) (MainVisitor.init true) = (false, none) :=
  ⟨((fix_idempotent ⟨0, 1, 2, 4⟩ 0 (fun _ => true)).1 (MainVisitor.init true)
      ⟨"Bar", true, [⟨⟨"typename WriteBarrierFieldTypeTraits<char *>::Type", 23, false, true,
          0⟩, "m_q", 200, "Field(char*) m_q;".data⟩]⟩ (by decide)).1,
   ((fix_idempotent ⟨0, 1, 2, 4⟩ 0 (fun _ => true)).1 (MainVisitor.init true)
      ⟨"Bar", true, [⟨⟨"typename WriteBarrierFieldTypeTraits<char *>::Type", 23, false, true,
          0⟩, "m_q", 200, "Field(char*) m_q;".data⟩]⟩ (by decide)).2 rfl⟩

/-- Counterexample to C12 as stated: the field `int*<TAB>m_p;`, spelled
`int *` by the type system, in fix mode. `MatchType` succeeds with the span
`int*`, the character after the span is a tab, which is whitespace, and the
closing text is `) ` with an inserted blank all the same. -/
theorem closing_after_tab :
    MatchType 3 "int *".data "int*\tm_p;".data = some (some "\tm_p;".data) ∧
    (processField ⟨0, 1, 2, 4⟩ 3 (MainVisitor.init true)
      ⟨⟨"int *", 21, true, true, 22⟩, "m_p", 100, "int*\tm_p;".data⟩).map
        (fun mv => mv._rewriter) = some [⟨100, 4, "Field(int*) ".data⟩] := by
  decide

/-- C12, amended: replacement text in fix mode. When `MatchType` succeeds on a
reported field, the source text at the field's location is the matched span
`S` followed by the remainder, and the edit replaces exactly `length(S)`
characters at the field's location with annotation ++ `S` ++ closing, where
the annotation is the spelling returned by `GetFieldTypeAnnotation` and the
closing is `)` when the character following the span is a blank `' '`, and
`) ` in every other case (a tab, a newline, any other character, or the end
of the text). -/
theorem replacement_text (E : AllocationTypes) (fuel : Nat) (mv : MainVisitor)
    (fld : FieldDecl) (hrep : fieldReported fld = true) (hfix : mv._fix = true)
    (endPtr : List Char)
    (hm : MatchType fuel fld.type.asString.data fld.characterData = some (some endPtr)) :
    ∃ S, fld.characterData = S ++ endPtr ∧
      processField E fuel mv fld =
        some { mv with
          _rewriter := mv._rewriter ++
            [⟨fld.locStart, S.length,
              ( GetFieldTypeAnnotation E mv fld.type).data ++ S ++
                (if endPtr.head? = some ' ' then ")".data else ") ".data)⟩],
          _fixed := true } := by
  obtain ⟨hraw, hnamed⟩ := (fieldReported_iff fld).mp hrep
  obtain ⟨S, hS⟩ := MatchType_suffix fuel _ _ _ hm
  refine ⟨S, hS.symm, ?_⟩
  rw [processField_fix_match E fuel mv fld hraw hnamed hfix endPtr hm]
  have hlen : fld.characterData.length - endPtr.length = S.length := by
    rw [← hS]; simp
  rw [hlen]
  have htake : fld.characterData.take S.length = S := by
    rw [← hS]; simp
  rw [htake]

/-- Witness of amended C12: the field `int* m_p;`; the span `int*` is
followed by a blank and the replacement text is `Field(int*)`. -/
theorem replacement_text_witness :
    ∃ S, "int* m_p;".data = S ++ " m_p;".data ∧
      processField ⟨0, 1, 2, 4⟩ 3 (MainVisitor.init true)
          ⟨⟨"int *", 21, true, true, 22⟩, "m_p", 100, "int* m_p;".data⟩ =
        some { MainVisitor.init true with
          _rewriter := [⟨100, S.length, "Field(".data ++ S ++ ")".data⟩],
          _fixed := true } :=
  replacement_text ⟨0, 1, 2, 4⟩ 3 (MainVisitor.init true)
    ⟨⟨"int *", 21, true, true, 22⟩, "m_p", 100, "int* m_p;".data⟩ (by decide) rfl
    " m_p;".data (by decide)

/-! ## Type-name matcher: an input on which the loop makes no progress -/

/-- An iteration that leaves both cursors where they are is repeated for
ever. -/
theorem matchLoop_stuck (p source : List Char) (hp : p ≠ []) (hs : source ≠ [])
    (hb : matchBody p source = .next p source) (fuel : Nat) :
    matchLoop fuel p source = none := by
  induction fuel with
  | zero => rw [matchLoop_zero, if_pos ⟨hp, hs⟩]
  | succ n ih => rw [matchLoop_succ_eq, if_pos ⟨hp, hs⟩, hb]; exact ih

/-- A run that does not return from the next cursors does not return from
these. -/
theorem matchLoop_none_of_next (p source p' source' : List Char) (hp : p ≠ [])
    (hs : source ≠ []) (hb : matchBody p source = .next p' source')
    (hnext : ∀ fuel, matchLoop fuel p' source' = none) (fuel : Nat) :
    matchLoop fuel p source = none := by
  cases fuel with
  | zero => rw [matchLoop_zero, if_pos ⟨hp, hs⟩]
  | succ n => rw [matchLoop_succ_eq, if_pos ⟨hp, hs⟩, hb]; exact hnext n

theorem matchLoop_diverges_on_sample (fuel : Nat) :
    matchLoop fuel "Foo<(N > 2)>".data "Foo<(N>2)> m;".data = none := by
  apply matchLoop_none_of_next _ _ "<(N > 2)>".data "<(N>2)> m;".data
    (by decide) (by decide) (by decide)
  apply matchLoop_none_of_next _ _ " 2)>".data "<(N>2)> m;".data
    (by decide) (by decide) (by decide)
  apply matchLoop_none_of_next _ _ "2)>".data "<(N>2)> m;".data
    (by decide) (by decide) (by decide)
  apply matchLoop_none_of_next _ _ "2)>".data "2)> m;".data
    (by decide) (by decide) (by decide)
  apply matchLoop_none_of_next _ _ ">".data "> m;".data
    (by decide) (by decide) (by decide)
  exact matchLoop_stuck ">".data "> m;".data (by decide) (by decide) (by decide)

theorem MatchType_diverges_on_sample (fuel : Nat) :
    MatchType fuel "Foo<(N > 2)>".data "Foo<(N>2)> m;".data = none := by
  rw [MatchType_eq_matchLoop fuel _ _ (by decide) (by decide)]
  exact matchLoop_diverges_on_sample fuel

/-- C19, evaluated at the failing input: the declared type `Foo<(N > 2)>`
against the source text `Foo<(N>2)> m;`. After five iterations both cursors
stand on a `>`; the iteration from there ends in `continue` with both cursors
where they were, so no character is consumed, and `MatchType` does not return
within any number of iterations. -/
theorem MatchType_does_not_terminate :
    matchBody ">".data "> m;".data = .next ">".data "> m;".data ∧
    Relation.ReflTransGen loopStep ("Foo<(N > 2)>".data, "Foo<(N>2)> m;".data)
      (">".data, "> m;".data) ∧
    ∀ fuel, MatchType fuel "Foo<(N > 2)>".data "Foo<(N>2)> m;".data = none := by
  refine ⟨by decide, ?_, MatchType_diverges_on_sample⟩
  refine Relation.ReflTransGen.head
    (show loopStep _ ("<(N > 2)>".data, "<(N>2)> m;".data) by decide) ?_
  refine Relation.ReflTransGen.head
    (show loopStep _ (" 2)>".data, "<(N>2)> m;".data) by decide) ?_
  refine Relation.ReflTransGen.head
    (show loopStep _ ("2)>".data, "<(N>2)> m;".data) by decide) ?_
  refine Relation.ReflTransGen.head
    (show loopStep _ ("2)>".data, "2)> m;".data) by decide) ?_
  exact Relation.ReflTransGen.single
    (show loopStep _ (">".data, "> m;".data) by decide)

/-- C11, evaluated at the failing input: fix mode, a record whose first field
is declared `Foo<(N>2)> m;` and spelled `Foo<(N > 2)>` by the type system,
and whose second field is the raw pointer `int* m_p;`. The matcher does not
return on the first field, so the field loop never returns: within no number
of iterations does it reach the second field or make any output. -/
theorem ProcessUnbarriedFields_stuck_on_first_field (fuel : Nat) :
    ProcessUnbarriedFields ⟨0, 1, 2, 4⟩ fuel (MainVisitor.init true)
      ⟨"R", true,
        [⟨⟨"Foo<(N > 2)>", 41, false, true, 0⟩, "m", 100, "Foo<(N>2)> m;".data⟩,
         ⟨⟨"int *", 21, true, true, 22⟩, "m_p", 120, "int* m_p;".data⟩]⟩ = none := by
  have h : processField ⟨0, 1, 2, 4⟩ fuel (MainVisitor.init true)
      ⟨⟨"Foo<(N > 2)>", 41, false, true, 0⟩, "m", 100, "Foo<(N>2)> m;".data⟩ = none := by
    have hm := MatchType_diverges_on_sample fuel
    have hrep : fieldReported
        ⟨⟨"Foo<(N > 2)>", 41, false, true, 0⟩, "m", 100, "Foo<(N>2)> m;".data⟩ = true := by
      decide
    unfold fieldReported at hrep
    unfold processField
    simp only [hrep, if_true, MainVisitor.init, hm]
  unfold ProcessUnbarriedFields
  rw [List.foldlM_cons, h]
  rfl

/-! ## Violation reporter: what the re-scan yields -/

theorem processField_outputs (E : AllocationTypes) (fuel : Nat) (mv mv' : MainVisitor)
    (fld : FieldDecl) (h : processField E fuel mv fld = some mv') :
    mv'.outputs = mv.outputs + (if fieldReported fld = true then 1 else 0) ∧
    mv'._fix = mv._fix := by
  cases hrep : fieldReported fld with
  | false =>
    rw [processField_unreported E fuel mv fld hrep] at h
    simp only [Option.some.injEq] at h
    subst h
    simp
  | true =>
    obtain ⟨hraw, hnamed⟩ := (fieldReported_iff fld).mp hrep
    cases hfix : mv._fix with
    | false =>
      rw [processField_report E fuel mv fld hraw hnamed hfix] at h
      simp only [Option.some.injEq] at h
      subst h
      simp [MainVisitor.outputs, hfix]
      omega
    | true =>
      cases hm : MatchType fuel fld.type.asString.data fld.characterData with
      | none =>
        unfold fieldReported at hrep
        unfold processField at h
        simp only [hrep, if_true, hfix, hm] at h
        exact absurd h (by simp)
      | some r =>
        cases r with
        | none =>
          rw [processField_fix_nomatch E fuel mv fld hraw hnamed hfix hm] at h
          simp only [Option.some.injEq] at h
          subst h
          simp [MainVisitor.outputs, hfix]
          omega
        | some endPtr =>
          rw [processField_fix_match E fuel mv fld hraw hnamed hfix endPtr hm] at h
          simp only [Option.some.injEq] at h
          subst h
          simp [MainVisitor.outputs, hfix]
          omega

theorem foldlM_processField_outputs (E : AllocationTypes) (fuel : Nat)
    (fields : List FieldDecl) (mv mv' : MainVisitor)
    (h : fields.foldlM (processField E fuel) mv = some mv') :
    mv'.outputs = mv.outputs + (fields.filter fieldReported).length := by
  induction fields generalizing mv with
  | nil =>
    simp only [List.foldlM_nil] at h
    have h' : mv = mv' := by simpa using h
    subst h'
    simp
  | cons fld rest ih =>
    rw [List.foldlM_cons] at h
    cases hp : processField E fuel mv fld with
    | none =>
      rw [hp] at h
      exact absurd h (by simp)
    | some mid =>
      rw [hp] at h
      have h1 := (processField_outputs E fuel mv mid fld hp).1
      have h2 := ih mid h
      rw [h2, h1]
      cases hrep : fieldReported fld with
      | false => simp [List.filter_cons, hrep]
      | true =>
        simp only [List.filter_cons, hrep, if_true, List.length_cons]
        omega

theorem foldlM_processField_total (E : AllocationTypes) (fuel : Nat)
    (fields : List FieldDecl) (mv : MainVisitor)
    (h : mv._fix = false ∨ ∀ fld ∈ fields, fieldReported fld = true →
      MatchType fuel fld.type.asString.data fld.characterData ≠ none) :
    ∃ mv', fields.foldlM (processField E fuel) mv = some mv' := by
  induction fields generalizing mv with
  | nil => exact ⟨mv, rfl⟩
  | cons fld rest ih =>
    have hstep : ∃ mid, processField E fuel mv fld = some mid := by
      cases hrep : fieldReported fld with
      | false => exact ⟨mv, processField_unreported E fuel mv fld hrep⟩
      | true =>
        obtain ⟨hraw, hnamed⟩ := (fieldReported_iff fld).mp hrep
        cases hfix : mv._fix with
        | false => exact ⟨_, processField_report E fuel mv fld hraw hnamed hfix⟩
        | true =>
          rcases h with h | h
          · rw [hfix] at h
            exact absurd h (by simp)
          · cases hm : MatchType fuel fld.type.asString.data fld.characterData with
            | none => exact absurd hm (h fld (List.mem_cons_self _ _) hrep)
            | some r =>
              cases r with
              | none => exact ⟨_, processField_fix_nomatch E fuel mv fld hraw hnamed hfix hm⟩
              | some endPtr =>
                exact ⟨_, processField_fix_match E fuel mv fld hraw hnamed hfix endPtr hm⟩
    obtain ⟨mid, hmid⟩ := hstep
    have hfixmid := (processField_outputs E fuel mv mid fld hmid).2
    rw [List.foldlM_cons, hmid]
    apply ih mid
    rcases h with h | h
    · exact Or.inl (hfixmid.trans h)
    · exact Or.inr (fun f hf => h f (List.mem_cons_of_mem _ hf))

theorem VisitCXXRecordDecl_barrieredClasses (cls : MainVisitor) (R : CXXRecordDecl)
    (hseen : cls._barrierTypeDefined = true) (hdef : R.hasDefinition = true) :
    (VisitCXXRecordDecl cls R)._barrieredClasses =
      if specHasUnbarrieredPointer cls R = true then cls._barrieredClasses
      else if specHasBarrieredField cls R = true then
        setInsert stringLess R.qualifiedNameAsString cls._barrieredClasses
      else cls._barrieredClasses := by
  have hfold' : R.fields.foldl
      (classifyField { cls with _barrierTypeDefined := true }) (false, false) =
      (specHasUnbarrieredPointer cls R, specHasBarrieredField cls R) := by
    rw [foldl_classifyField]
    simp [specHasUnbarrieredPointer, specHasBarrieredField]
  cases hu : specHasUnbarrieredPointer cls R <;>
  cases hb : specHasBarrieredField cls R <;>
  simp [VisitCXXRecordDecl, hseen, hdef, hfold', hu, hb]

/-- For a record with at least one field, all of them named and each either
barrier-spelled or a raw pointer, the visit puts the name in
BarrieredClassSet exactly when no field is left to report. -/
theorem reported_iff_not_barriered (cls : MainVisitor) (R : CXXRecordDecl)
    (hseen : cls._barrierTypeDefined = true) (hdef : R.hasDefinition = true)
    (hnew : R.qualifiedNameAsString ∉ cls._barrieredClasses) (hne : R.fields ≠ [])
    (hfields : ∀ fld ∈ R.fields, fld.nameAsString.length > 0 ∧
      (isBarrierSpelled fld.type.asString = true ∨ fld.type.isPointerType = true)) :
    (∃ fld ∈ R.fields, fieldReported fld = true) ↔
      R.qualifiedNameAsString ∉ (VisitCXXRecordDecl cls R)._barrieredClasses := by
  rw [VisitCXXRecordDecl_barrieredClasses cls R hseen hdef]
  by_cases h : ∃ fld ∈ R.fields, isBarrierSpelled fld.type.asString = false
  · obtain ⟨fld, hf, hraw⟩ := h
    have hptr : fld.type.isPointerType = true := by
      rcases (hfields fld hf).2 with hs | hp
      · rw [hraw] at hs
        exact absurd hs (by simp)
      · exact hp
    have hu : specHasUnbarrieredPointer cls R = true := by
      unfold specHasUnbarrieredPointer
      rw [List.any_eq_true]
      exact ⟨fld, hf, by simp [hraw, hptr]⟩
    rw [if_pos hu]
    exact ⟨fun _ => hnew,
      fun _ => ⟨fld, hf, (fieldReported_iff fld).mpr ⟨hraw, (hfields fld hf).1⟩⟩⟩
  · have hall : ∀ fld ∈ R.fields, isBarrierSpelled fld.type.asString = true := by
      intro fld hf
      cases hs : isBarrierSpelled fld.type.asString with
      | true => rfl
      | false => exact absurd ⟨fld, hf, hs⟩ h
    have hu : ¬ specHasUnbarrieredPointer cls R = true := by
      unfold specHasUnbarrieredPointer
      rw [List.any_eq_true]
      rintro ⟨fld, hf, hc⟩
      simp [hall fld hf] at hc
    have hb : specHasBarrieredField cls R = true := by
      unfold specHasBarrieredField
      rw [List.any_eq_true]
      obtain ⟨fld, hf⟩ := List.exists_mem_of_ne_nil _ hne
      exact ⟨fld, hf, by simp [hall fld hf]⟩
    rw [if_neg hu, if_pos hb]
    constructor
    · rintro ⟨fld, hf, hrep⟩
      rw [fieldReported_of_spelled fld (hall fld hf)] at hrep
      exact absurd hrep (by simp)
    · intro hnot
      exact absurd ((mem_setInsert _ _ _ _).mpr (Or.inl rfl)) hnot

/-- Counterexample to C15 as stated: a run in report mode over the marker,
record `R` (a barrier-spelled field and an `int` field), record `S` (no
field), both constructed through `AllocWithBarrier`. After the pass `R` is a
member of BarrieredClassSet and the re-scan still yields a diagnostic for its
`int` field; `S` is not a member of BarrieredClassSet and the re-scan yields
nothing for it. Membership fails in both directions. -/
theorem violation_is_not_set_membership :
    (HandleTranslationUnit ⟨0, 1, 2, 4⟩
      (fun t =>
        if t = 1 then
          some ⟨"R", true,
            [⟨⟨"typename WriteBarrierFieldTypeTraits<char *>::Type", 23, false, true, 0⟩,
                "m_q", 100, "Field(char*) m_q;".data⟩,
             ⟨⟨"int", 24, false, false, 0⟩, "m_n", 110, "int m_n;".data⟩]⟩
        else if t = 2 then some ⟨"S", true, []⟩
        else none)
      0 false
      [.CXXRecord ⟨"Memory::NoWriteBarrierField", true, []⟩,
       .CXXRecord ⟨"R", true,
          [⟨⟨"typename WriteBarrierFieldTypeTraits<char *>::Type", 23, false, true, 0⟩,
              "m_q", 100, "Field(char*) m_q;".data⟩,
           ⟨⟨"int", 24, false, false, 0⟩, "m_n", 110, "int m_n;".data⟩]⟩,
       .CXXRecord ⟨"S", true, []⟩,
       .Function ⟨true,
          [⟨[.CXXStaticCastExpr (some "Recycler"),
              .UnaryOperator .UO_AddrOf (.DeclRefExpr "AllocWithBarrier")],
              ⟨"R", 1, false, true, 0⟩⟩,
           ⟨[.CXXStaticCastExpr (some "Recycler"),
              .UnaryOperator .UO_AddrOf (.DeclRefExpr "AllocWithBarrier")],
              ⟨"S", 2, false, true, 0⟩⟩]⟩]).map
        (fun mv => (mv._barrieredClasses, mv._allocationTypes, mv.diagnostics)) =
      some (["R"], [(1, 4), (2, 4)], [110]) := by
  decide

/-- C15, amended: what makes a record a violation. Whenever the re-scan of
the fields of `R` in `ProcessUnbarriedFields` returns, it has yielded at
least one diagnostic or replacement iff `R` has at least one named field
whose type text is not barrier-spelled, whatever the sets hold; and it does
return in report mode, and in fix mode when `MatchType` returns on those
fields. Membership of BarrieredClassSet agrees with this only for a record
with at least one field, all of whose fields are named and are each either
barrier-spelled or a raw pointer: for such a record, visited with a visible
definition after the marker and its name not yet in BarrieredClassSet, the
re-scan has something to report iff the visit leaves the name out of
BarrieredClassSet. -/
theorem violation_characterisation (E : AllocationTypes) (fuel : Nat) (mv : MainVisitor)
    (R : CXXRecordDecl) :
    (∀ mv', ProcessUnbarriedFields E fuel mv R = some mv' →
      (mv'.outputs > mv.outputs ↔ ∃ fld ∈ R.fields, fieldReported fld = true)) ∧
    ((mv._fix = false ∨ ∀ fld ∈ R.fields, fieldReported fld = true →
        MatchType fuel fld.type.asString.data fld.characterData ≠ none) →
      ∃ mv', ProcessUnbarriedFields E fuel mv R = some mv') ∧
    (∀ cls : MainVisitor, cls._barrierTypeDefined = true → R.hasDefinition = true →
      R.qualifiedNameAsString ∉ cls._barrieredClasses → R.fields ≠ [] →
      (∀ fld ∈ R.fields, fld.nameAsString.length > 0 ∧
        (isBarrierSpelled fld.type.asString = true ∨ fld.type.isPointerType = true)) →
      ((∃ fld ∈ R.fields, fieldReported fld = true) ↔
        R.qualifiedNameAsString ∉ (VisitCXXRecordDecl cls R)._barrieredClasses)) := by
  refine ⟨?_, foldlM_processField_total E fuel R.fields mv,
    fun cls h1 h2 h3 h4 h5 => reported_iff_not_barriered cls R h1 h2 h3 h4 h5⟩
  intro mv' h
  have hout := foldlM_processField_outputs E fuel R.fields mv mv' h
  rw [hout]
  constructor
  · intro hgt
    have hpos : 0 < (R.fields.filter fieldReported).length := by omega
    obtain ⟨fld, hf⟩ := List.exists_mem_of_length_pos hpos
    rw [List.mem_filter] at hf
    exact ⟨fld, hf.1, hf.2⟩
  · rintro ⟨fld, hf, hrep⟩
    have hmem : fld ∈ R.fields.filter fieldReported := List.mem_filter.mpr ⟨hf, hrep⟩
    have hpos := List.length_pos_of_mem hmem
    omega

/-- Witness of amended C15: report mode, a record with one raw pointer
field; the re-scan returns with one output more. -/
theorem violation_characterisation_witness :
    ∃ mv', ProcessUnbarriedFields ⟨0, 1, 2, 4⟩ 0 (MainVisitor.init false)
        ⟨"A", true, [⟨⟨"int *", 21, true, true, 22⟩, "m_p", 100, "int* m_p;".data⟩]⟩ =
          some mv' ∧
      mv'.outputs > (MainVisitor.init false).outputs := by
  obtain ⟨mv', h⟩ := (violation_characterisation ⟨0, 1, 2, 4⟩ 0 (MainVisitor.init false)
    ⟨"A", true, [⟨⟨"int *", 21, true, true, 22⟩, "m_p", 100, "int* m_p;".data⟩]⟩).2.1
    (Or.inl rfl)
  exact ⟨mv', h,
    ((violation_characterisation ⟨0, 1, 2, 4⟩ 0 (MainVisitor.init false)
      ⟨"A", true, [⟨⟨"int *", 21, true, true, 22⟩, "m_p", 100, "int* m_p;".data⟩]⟩).1 mv' h).mpr
      ⟨_, List.mem_cons_self _ _, by decide⟩⟩

/-! ## The annotation spelling -/

theorem CheckAllocationType_enum (E : AllocationTypes) (castNode : Option String) :
    CheckAllocationType E castNode = E.Unknown ∨
    CheckAllocationType E castNode = E.NonRecycler ∨
    CheckAllocationType E castNode = E.Recycler ∨
    CheckAllocationType E castNode = E.WriteBarrier := by
  unfold CheckAllocationType
  split
  · split
    · exact Or.inr (Or.inr (Or.inl rfl))
    · exact Or.inr (Or.inl rfl)
  · exact Or.inl rfl

/-- Every visit leaves the allocation-kind map alone or unions one of the
four enumerators into the entry of the allocated type. -/
theorem VisitCXXNewExpr_allocationTypes_enum (E : AllocationTypes) (mv : MainVisitor)
    (e : CXXNewExpr) :
    (VisitCXXNewExpr E mv e)._allocationTypes = mv._allocationTypes ∨
    ∃ kind, (kind = E.Unknown ∨ kind = E.NonRecycler ∨ kind = E.Recycler ∨
        kind = E.WriteBarrier) ∧
      (VisitCXXNewExpr E mv e)._allocationTypes =
        mapModify ptrLess e.allocatedType.canonicalTypePtr 0 (fun k => k ||| kind)
          mv._allocationTypes := by
  unfold VisitCXXNewExpr
  dsimp only
  repeat' split
  all_goals first
    | exact Or.inl rfl
    | exact Or.inr ⟨_, Or.inr (Or.inr (Or.inr rfl)), rfl⟩
    | exact Or.inr ⟨_, CheckAllocationType_enum E _, rfl⟩

theorem IsKindUnion_zero (E : AllocationTypes) : IsKindUnion E 0 :=
  ⟨false, false, false, by simp⟩

theorem IsKindUnion_or (E : AllocationTypes) (hU : E.Unknown = 0) (k kind : Nat)
    (hk : IsKindUnion E k)
    (hkind : kind = E.Unknown ∨ kind = E.NonRecycler ∨ kind = E.Recycler ∨
      kind = E.WriteBarrier) : IsKindUnion E (k ||| kind) := by
  obtain ⟨a, b, c, rfl⟩ := hk
  rcases hkind with h | h | h | h
  · rw [h, hU, Nat.or_zero]
    exact ⟨a, b, c, rfl⟩
  · refine ⟨true, b, c, ?_⟩
    rw [h]
    apply Nat.eq_of_testBit_eq
    intro i
    cases a <;> cases b <;> cases c <;>
      simp only [Nat.testBit_or, if_true, if_false, Bool.false_eq_true, Nat.zero_testBit] <;>
      cases E.NonRecycler.testBit i <;> cases E.Recycler.testBit i <;>
      cases E.WriteBarrier.testBit i <;> rfl
  · refine ⟨a, true, c, ?_⟩
    rw [h]
    apply Nat.eq_of_testBit_eq
    intro i
    cases a <;> cases b <;> cases c <;>
      simp only [Nat.testBit_or, if_true, if_false, Bool.false_eq_true, Nat.zero_testBit] <;>
      cases E.NonRecycler.testBit i <;> cases E.Recycler.testBit i <;>
      cases E.WriteBarrier.testBit i <;> rfl
  · refine ⟨a, b, true, ?_⟩
    rw [h]
    apply Nat.eq_of_testBit_eq
    intro i
    cases a <;> cases b <;> cases c <;>
      simp only [Nat.testBit_or, if_true, if_false, Bool.false_eq_true, Nat.zero_testBit] <;>
      cases E.NonRecycler.testBit i <;> cases E.Recycler.testBit i <;>
      cases E.WriteBarrier.testBit i <;> rfl

/-- After the traversal every accumulated kind is a union of enumerators. -/
theorem TraverseDecl_kinds (E : AllocationTypes) (hU : E.Unknown = 0) ( fix : Bool)
    (tu : List Decl) :
    ∀ t k, (t, k) ∈ (TraverseDecl E (MainVisitor.init fix) tu)._allocationTypes →
      IsKindUnion E k :=
  TraverseDecl_invariant E
    (fun mv => ∀ t k, (t, k) ∈ mv._allocationTypes → IsKindUnion E k) tu
    (by
      intro mv R h
      rw [(VisitCXXRecordDecl_frame mv R).2.2.2]
      exact h)
    (by
      intro mv e _ h
      rcases VisitCXXNewExpr_allocationTypes_enum E mv e with h0 | ⟨kind, hkind, h1⟩
      · rw [h0]; exact h
      · rw [h1]
        intro t k hmem
        rcases mem_mapModify _ _ _ _ _ _ hmem with hold | ⟨v, hv, he⟩
        · exact h t k hold
        · simp only [Prod.mk.injEq] at he
          rw [he.2]
          apply IsKindUnion_or E hU v kind _ hkind
          rcases hv with hv | hv
          · rw [hv]; exact IsKindUnion_zero E
          · exact h _ v hv)
    (MainVisitor.init fix)
    (by intro t k hmem; exact absurd hmem (List.not_mem_nil _))

/-- For a union of enumerators, being exactly `NonRecycler` is having
`NonRecycler` and neither `Recycler` nor `WriteBarrier`. -/
theorem IsKindUnion_eq_nonRecycler (E : AllocationTypes)
    (hNR_R : E.NonRecycler &&& E.Recycler = 0) (hNR_WB : E.NonRecycler &&& E.WriteBarrier = 0)
    (hR : E.Recycler ≠ 0) (hWB : E.WriteBarrier ≠ 0) (k : Nat) (hk : IsKindUnion E k) :
    k = E.NonRecycler ↔
      k &&& E.NonRecycler = E.NonRecycler ∧ k &&& E.Recycler = 0 ∧
        k &&& E.WriteBarrier = 0 := by
  constructor
  · intro h
    rw [h]
    exact ⟨Nat.and_self _, hNR_R, hNR_WB⟩
  · rintro ⟨h1, h2, h3⟩
    obtain ⟨a, b, c, rfl⟩ := hk
    cases c with
    | true =>
      rw [if_pos rfl, or_self_and] at h3
      exact absurd h3 hWB
    | false =>
      cases b with
      | true =>
        rw [if_pos rfl, or_and_self_of_and _ _ _ (or_self_and _ _)] at h2
        exact absurd h2 hR
      | false =>
        cases a with
        | true => simp
        | false =>
          simp only [Bool.false_eq_true, if_false, Nat.or_zero, Nat.zero_and] at h1 ⊢
          exact h1

/-- C16: the annotation spelling. Let `Unknown` be the empty set of flags,
`NonRecycler` share no bit with `Recycler` or `WriteBarrier`, and those two be
non-empty. On the allocation kinds accumulated by a traversal,
`GetFieldTypeAnnotation` returns `FieldNoBarrier(` exactly when the field's
type is a pointer and the kind recorded for its pointee has `NonRecycler` and
neither `Recycler` nor `WriteBarrier`, which is when the recorded kind equals
`NonRecycler`; in every other case, a non-pointer field and a pointee with no
recorded allocation included, it returns `Field(`. -/
theorem annotation_spelling_rule (E : AllocationTypes) (hU : E.Unknown = 0)
    (hNR_R : E.NonRecycler &&& E.Recycler = 0) (hNR_WB : E.NonRecycler &&& E.WriteBarrier = 0)
    (hR : E.Recycler ≠ 0) (hWB : E.WriteBarrier ≠ 0) ( fix : Bool) (tu : List Decl)
    (mv : MainVisitor)
    (hmv : mv._allocationTypes = (TraverseDecl E (MainVisitor.init fix) tu)._allocationTypes)
    (qtype : QualType) :
    ( GetFieldTypeAnnotation E mv qtype = "FieldNoBarrier(" ↔
      qtype.isPointerType = true ∧
      ∃ k, mapFind qtype.pointeeTypePtr mv._allocationTypes = some k ∧
        k &&& E.NonRecycler = E.NonRecycler ∧ k &&& E.Recycler = 0 ∧
        k &&& E.WriteBarrier = 0) ∧
    ( GetFieldTypeAnnotation E mv qtype = "FieldNoBarrier(" ↔
      qtype.isPointerType = true ∧
      mapFind qtype.pointeeTypePtr mv._allocationTypes = some E.NonRecycler) ∧
    ( GetFieldTypeAnnotation E mv qtype ≠ "FieldNoBarrier(" →
      GetFieldTypeAnnotation E mv qtype = "Field(") ∧
    (qtype.isPointerType = false → GetFieldTypeAnnotation E mv qtype = "Field(") ∧
    (mapFind qtype.pointeeTypePtr mv._allocationTypes = none →
      GetFieldTypeAnnotation E mv qtype = "Field(") := by
  have hcode : GetFieldTypeAnnotation E mv qtype = "FieldNoBarrier(" ↔
      qtype.isPointerType = true ∧
      mapFind qtype.pointeeTypePtr mv._allocationTypes = some E.NonRecycler := by
    cases hp : qtype.isPointerType with
    | false => simp [ GetFieldTypeAnnotation, hp]
    | true =>
      cases hfind : mapFind qtype.pointeeTypePtr mv._allocationTypes with
      | none => simp [ GetFieldTypeAnnotation, hp, hfind]
      | some k =>
        by_cases hk : k = E.NonRecycler
        · simp [ GetFieldTypeAnnotation, hp, hfind, hk]
        · simp [ GetFieldTypeAnnotation, hp, hfind, hk]
  have hother : GetFieldTypeAnnotation E mv qtype ≠ "FieldNoBarrier(" →
      GetFieldTypeAnnotation E mv qtype = "Field(" := by
    unfold GetFieldTypeAnnotation
    dsimp only
    repeat' split
    all_goals simp
  refine ⟨?_, hcode, hother, ?_, ?_⟩
  · rw [hcode]
    constructor
    · rintro ⟨hp, hfind⟩
      have hkind : IsKindUnion E E.NonRecycler :=
        TraverseDecl_kinds E hU fix tu _ _ (by rw [← hmv]; exact mapFind_mem _ _ _ hfind)
      exact ⟨hp, E.NonRecycler, hfind,
        (IsKindUnion_eq_nonRecycler E hNR_R hNR_WB hR hWB _ hkind).mp rfl⟩
    · rintro ⟨hp, k, hfind, hbits⟩
      have hkind : IsKindUnion E k :=
        TraverseDecl_kinds E hU fix tu _ _ (by rw [← hmv]; exact mapFind_mem _ _ _ hfind)
      rw [(IsKindUnion_eq_nonRecycler E hNR_R hNR_WB hR hWB k hkind).mpr hbits] at hfind
      exact ⟨hp, hfind⟩
  · intro hp
    apply hother
    intro hc
    have h := (hcode.mp hc).1
    rw [hp] at h
    exact absurd h (by simp)
  · intro hnone
    apply hother
    intro hc
    have h := (hcode.mp hc).2
    rw [hnone] at h
    exact absurd h (by simp)

/-- Witness of C16: the pointee at address 22 is constructed through two
casts to `ArenaAllocator` and nothing else; a pointer to it is annotated
`FieldNoBarrier(`. -/
theorem annotation_spelling_rule_witness :
    (0 : Nat) = 0 ∧ (1 : Nat) &&& 2 = 0 ∧ (1 : Nat) &&& 4 = 0 ∧
    GetFieldTypeAnnotation ⟨0, 1, 2, 4⟩
      (TraverseDecl ⟨0, 1, 2, 4⟩ (MainVisitor.init true)
        [.Function ⟨true,
          [⟨[.CXXStaticCastExpr (some "ArenaAllocator"), .Other], ⟨"int", 22, false, false, 0⟩⟩,
           ⟨[.CXXStaticCastExpr (some "ArenaAllocator"), .Other],
              ⟨"int", 22, false, false, 0⟩⟩]⟩])
      ⟨"int *", 21, true, true, 22⟩ = "FieldNoBarrier(" :=
  ⟨rfl, by decide, by decide,
   (annotation_spelling_rule ⟨0, 1, 2, 4⟩ rfl (by decide) (by decide) (by decide) (by decide)
      true
      [.Function ⟨true,
          [⟨[.CXXStaticCastExpr (some "ArenaAllocator"), .Other], ⟨"int", 22, false, false, 0⟩⟩,
           ⟨[.CXXStaticCastExpr (some "ArenaAllocator"), .Other],
              ⟨"int", 22, false, false, 0⟩⟩]⟩]
      _ rfl ⟨"int *", 21, true, true, 22⟩).1.mpr
      ⟨rfl, 1, by decide, by decide, by decide, by decide⟩⟩

end RecyclerChecker
